import Mathlib

/-!
# Verification of `hier_object.py`

A shallow embedding of the `hier_object` library: computer-vision bounding
boxes (`HierObject` entities) grouped by image and class label, with passes
that compute pairwise overlap facts, flag duplicate annotations, and assign
parent/child relationships.

Python floats are modelled as exact rationals; `round(x, 5)` is modelled as
round-half-to-even at 5 decimal places.  Python dictionaries (which preserve
insertion order and have unique keys) are modelled as association lists, and
in-place mutation of entities is modelled by threading the per-image store
through each pass, addressing an entity by (bucket label, position) exactly
as the Python object references do.
-/

namespace HierObj

section

/- Batteries marks the `Rat` field operations `@[irreducible]`; re-enable
unfolding so that concrete scenarios can be settled by `decide`. -/
attribute [local semireducible] Rat.add Rat.sub Rat.mul Rat.inv

/-! ## Rounding (Python `round(x, 5)` on exact rationals) -/

/-- Round a rational to the nearest integer, ties to even
(the rounding mode of Python's built-in `round`). -/
def roundHalfEven (x : ℚ) : ℤ :=
  let f := ⌊x⌋
  let r := x - (f : ℚ)
  if r < 1/2 then f
  else if 1/2 < r then f + 1
  else if Even f then f else f + 1

/-- `round(x, 5)`: round to 5 decimal places. -/
def rn (x : ℚ) : ℚ := (roundHalfEven (x * 100000) : ℚ) / 100000

/-! ## Association lists (Python `dict` with insertion order) -/

/-- First-match lookup in an association list (Python `d.get(k)`). -/
def alistGet {α : Type} : List (String × α) → String → Option α
  | [], _ => none
  | (k, v) :: rest, key => if k = key then some v else alistGet rest key

/-- Lookup with a default (Python `d.get(k, dflt)`). -/
def alistGetD {α : Type} (l : List (String × α)) (key : String) (dflt : α) : α :=
  (alistGet l key).getD dflt

/-- `d[k] = v`: overwrite the first binding of `key`, or append a new
binding at the end (dict insertion order). -/
def alistSet {α : Type} : List (String × α) → String → α → List (String × α)
  | [], key, v => [(key, v)]
  | (k, w) :: rest, key, v =>
    if k = key then (k, v) :: rest else (k, w) :: alistSet rest key v

/-- `defaultdict` access-and-modify: apply `f` to the value bound to `key`
(taking `dflt` when the key is absent, in which case the new binding is
appended at the end). -/
def alistModifyD {α : Type} : List (String × α) → String → α → (α → α) → List (String × α)
  | [], key, dflt, f => [(key, f dflt)]
  | (k, w) :: rest, key, dflt, f =>
    if k = key then (k, f w) :: rest else (k, w) :: alistModifyD rest key dflt f

/-- Modify the element at position `i` of a list (no-op when out of range). -/
def listModify {α : Type} : List α → ℕ → (α → α) → List α
  | [], _, _ => []
  | x :: rest, 0, f => f x :: rest
  | x :: rest, n+1, f => x :: listModify rest n f

/-! ## Data model -/

/-- An address of an entity inside one image: the label bucket key and the
position inside that bucket.  This models a Python object reference. -/
abbrev Addr := String × ℕ

/-- The `Overlap` namedtuple: overlap facts between an object and another
object, from the first object's point of view.  The Python field `obj`
(a reference to the other object) is modelled by its address `objAddr`. -/
structure Overlap where
  index : ℕ
  self_inside_other : Bool
  center_of_self : Bool
  other_inside_self : Bool
  center_of_other : Bool
  intersection : ℚ
  iou : ℚ
  iom : ℚ
  objAddr : Addr
deriving Repr, DecidableEq

/-- A `HierObject` entity: geometry fixed at construction, relationship
fields (`overlap`, `duplicate`, `parent`, `children`) initially `none`
(Python `None`) and filled in by later passes. -/
structure Entity where
  label : String
  imageID : String
  x0 : ℚ
  y0 : ℚ
  x1 : ℚ
  y1 : ℚ
  w : ℚ
  h : ℚ
  xc : ℚ
  yc : ℚ
  area : ℚ
  index : ℕ
  overlap : Option (List (String × List Overlap))
  duplicate : Option Bool
  parent : Option (List (String × ℕ))
  children : Option (List (String × List ℕ))
deriving Repr, DecidableEq

/-- One image's objects: label → ordered list of entities. -/
abbrev Image := List (String × List Entity)

/-- All objects of all images: image id → image (`create_all_dict()`). -/
abbrev AllObjects := List (String × Image)

/-- Read the entity at an address within one image. -/
def getEntity (img : Image) (a : Addr) : Option Entity :=
  (alistGetD img a.1 []).get? a.2

/-- Mutate the entity at an address within one image
(first bucket whose key matches, entity at the given position). -/
def imgModify : Image → Addr → (Entity → Entity) → Image
  | [], _, _ => []
  | (l, es) :: rest, a, f =>
    if l = a.1 then (l, listModify es a.2 f) :: rest
    else (l, es) :: imgModify rest a f

/-- Mutate every entity of the bucket with the given label
(first bucket whose key matches). -/
def mapBucket : Image → String → (Entity → Entity) → Image
  | [], _, _ => []
  | (l, es) :: rest, key, f =>
    if l = key then (l, es.map f) :: rest else (l, es) :: mapBucket rest key f

/-! ## Geometry (pure queries on entities) -/

/-- `has_intersection`: the two boxes overlap with positive width and height. -/
def hasIntersection (a b : Entity) : Bool :=
  decide (0 < min a.x1 b.x1 - max a.x0 b.x0) && decide (0 < min a.y1 b.y1 - max a.y0 b.y0)

/-- `is_inside`: this box is inside (or the same as) the other. -/
def isInside (a b : Entity) : Bool :=
  decide (b.x0 ≤ a.x0) && decide (a.x1 ≤ b.x1) && decide (b.y0 ≤ a.y0) && decide (a.y1 ≤ b.y1)

/-- `center_is_inside`: the center of this box is strictly inside the other. -/
def centerIsInside (a b : Entity) : Bool :=
  decide (b.x0 < a.xc) && decide (a.xc < b.x1) && decide (b.y0 < a.yc) && decide (a.yc < b.y1)

/-- `intersection_area`: clipped overlap area, `0` for non-positive overlap. -/
def intersectionArea (a b : Entity) : ℚ :=
  let w := min a.x1 b.x1 - max a.x0 b.x0
  let h := min a.y1 b.y1 - max a.y0 b.y0
  if w ≤ 0 ∨ h ≤ 0 then 0 else w * h

/-! ## Construction (`HierObject.__init__` + `HierObject.parse`) -/

/-- The result of constructing one `HierObject`: the collection after the
call, and the constructed entity (`none` when an assertion failed; the
collection is returned as it was at the point of failure). -/
structure InitResult where
  all : AllObjects
  entity : Option Entity
deriving Repr, DecidableEq

/-- `HierObject(obj)` for an "openimages"-style row: round the four
coordinates to 5 decimals, check `w > 0`, `h > 0` and `area > 0` (the
`assert`s of `parse` and `__init__`, in source order), then append the
entity to the `all[imageID][label]` bucket and record its index there. -/
def hierObjectInit (all : AllObjects) (labelName imageID : String)
    (xmin xmax ymin ymax : ℚ) : InitResult :=
  let x0 := rn xmin
  let x1 := rn xmax
  let y0 := rn ymin
  let y1 := rn ymax
  let w := rn (x1 - x0)
  if ¬ (0 < w) then ⟨all, none⟩ else
  let h := rn (y1 - y0)
  if ¬ (0 < h) then ⟨all, none⟩ else
  let xc := rn ((x0 + x1) / 2)
  let yc := rn ((y0 + y1) / 2)
  let area := w * h
  if ¬ (0 < area) then ⟨all, none⟩ else
  let img := alistGetD all imageID []
  let bucket := alistGetD img labelName []
  let e : Entity :=
    { label := labelName, imageID := imageID,
      x0 := x0, y0 := y0, x1 := x1, y1 := y1,
      w := w, h := h, xc := xc, yc := yc, area := area,
      index := bucket.length,
      overlap := none, duplicate := none, parent := none, children := none }
  ⟨alistSet all imageID (alistSet img labelName (bucket ++ [e])), some e⟩

/-! ## Overlap index builder (`find_overlapping_objects` / `compare`) -/

/-- The two mirrored `Overlap` facts `compare` builds for an intersecting
pair: the first from `e1`'s point of view, the second from `e2`'s. -/
def mkOverlapPair (e1 e2 : Entity) (a1 a2 : Addr) : Overlap × Overlap :=
  let center1 := centerIsInside e1 e2
  let center2 := centerIsInside e2 e1
  let inside1 := isInside e1 e2
  let inside2 := isInside e2 e1
  let inter := intersectionArea e1 e2
  let iou := rn (inter / (e1.area + e2.area - inter))
  let iom := rn (inter / min e1.area e2.area)
  ({ index := e2.index,
     self_inside_other := inside1, center_of_self := center1,
     other_inside_self := inside2, center_of_other := center2,
     intersection := rn inter, iou := iou, iom := iom, objAddr := a2 },
   { index := e1.index,
     self_inside_other := inside2, center_of_self := center2,
     other_inside_self := inside1, center_of_other := center1,
     intersection := rn inter, iou := iou, iom := iom, objAddr := a1 })

/-- `obj.overlap[label].append(fact)` on an overlap dict. -/
def appendFact (d : List (String × List Overlap)) (key : String) (f : Overlap) :
    List (String × List Overlap) :=
  alistModifyD d key [] (fun fs => fs ++ [f])

/-- `compare(obj1, obj2)`: when the two entities intersect, append the
mirrored facts to each one's overlap dict under the other's label. -/
def compareStep (img : Image) (a1 a2 : Addr) : Image :=
  match getEntity img a1, getEntity img a2 with
  | some e1, some e2 =>
    if hasIntersection e1 e2 then
      let fs := mkOverlapPair e1 e2 a1 a2
      let img1 := imgModify img a1
        (fun e => { e with overlap := some (appendFact (e.overlap.getD []) e2.label fs.1) })
      imgModify img1 a2
        (fun e => { e with overlap := some (appendFact (e.overlap.getD []) e1.label fs.2) })
    else img
  | _, _ => img

/-- `obj.overlap = defaultdict(list)` for every object of the image. -/
def clearOverlaps (img : Image) : Image :=
  img.map (fun p => (p.1, p.2.map (fun e => { e with overlap := some [] })))

/-- The flattened list of addresses of all entities of one image, in bucket
order (the Python `flat` list of object references). -/
def flatAddrs (img : Image) : List Addr :=
  img.flatMap (fun p => (List.range p.2.length).map (fun i => (p.1, i)))

/-- All position pairs `(idx1, idx2)` with `idx1 < idx2 < n`, in the order
of the Python double loop. -/
def pairList (n : ℕ) : List (ℕ × ℕ) :=
  (List.range n).flatMap (fun i => ((List.range n).filter (fun j => i < j)).map (fun j => (i, j)))

/-- One iteration of the pair loop: look the two flat positions up and
`compare` the addressed entities. -/
def overlapPairStep (addrs : List Addr) (im : Image) (ij : ℕ × ℕ) : Image :=
  match addrs.get? ij.1, addrs.get? ij.2 with
  | some a1, some a2 => compareStep im a1 a2
  | _, _ => im

/-- The body of `find_overlapping_objects` for one image: reset every
overlap dict, then `compare` every unordered pair of the flat list. -/
def findOverlappingImage (img : Image) : Image :=
  let addrs := flatAddrs img
  (pairList addrs.length).foldl (overlapPairStep addrs) (clearOverlaps img)

/-- `find_overlapping_objects(all_obj)`. -/
def findOverlappingObjects (all : AllObjects) : AllObjects :=
  all.map (fun p => (p.1, findOverlappingImage p.2))

/-! ## Duplicate resolver (`find_duplicates` / `redundant_and_not_last`) -/

/-- `redundant_and_not_last()` with the default threshold `0.5`: some
same-label overlap fact has `iou > 0.5` and a larger index. -/
def redundantAndNotLast (e : Entity) : Bool :=
  (alistGetD (e.overlap.getD []) e.label []).any
    (fun o => decide ((1 : ℚ)/2 < o.iou) && decide (e.index < o.index))

/-- `find_duplicates(all_obj)`: set every entity's duplicate flag.  (The
flag of an entity depends only on that entity's own overlap facts and
index, which the loop never modifies, so the sequential Python loop is a
map.) -/
def findDuplicates (all : AllObjects) : AllObjects :=
  all.map (fun p =>
    (p.1, p.2.map (fun q =>
      (q.1, q.2.map (fun e => { e with duplicate := some (redundantAndNotLast e) })))))

/-! ## Parent assigner (`find_parent` / `sort_for_parent`) -/

/-- The sort key of `sort_for_parent`:
`(int(self_inside_other), int(center_of_self), iom)`. -/
def pkey (o : Overlap) : ℕ × ℕ × ℚ :=
  ((if o.self_inside_other then 1 else 0), (if o.center_of_self then 1 else 0), o.iom)

/-- Lexicographic `≤` on sort keys (Python tuple comparison). -/
def pkeyLe (a b : ℕ × ℕ × ℚ) : Prop :=
  a.1 < b.1 ∨ (a.1 = b.1 ∧ (a.2.1 < b.2.1 ∨ (a.2.1 = b.2.1 ∧ a.2.2 ≤ b.2.2)))

instance : DecidablePred (fun ab : (ℕ × ℕ × ℚ) × (ℕ × ℕ × ℚ) => pkeyLe ab.1 ab.2) :=
  fun _ => by unfold pkeyLe; infer_instance

/-- `a` ranks at least as high as `b` for `sort_for_parent`
(descending order, so larger keys first). -/
def parentGe (a b : Overlap) : Prop := pkeyLe (pkey b) (pkey a)

instance : DecidableRel parentGe := fun a b => by unfold parentGe pkeyLe; infer_instance

/-- `sort_for_parent(overlap_list)`: stable sort, highest key first
(`sorted(..., reverse=True)` is a stable descending sort). -/
def sortForParent (l : List Overlap) : List Overlap :=
  l.insertionSort parentGe

/-- Truthiness of `x.duplicate` for the entity at an address
(`None` and `False` are falsy). -/
def dupTruthy (img : Image) (a : Addr) : Bool :=
  match getEntity img a with
  | some e => e.duplicate.getD false
  | none => false

/-- The candidate list of `find_parent` for one child: the child's overlap
facts under the parent label whose `center_of_self` flag holds and whose
other object is not flagged duplicate. -/
def candidateFacts (img : Image) (parentLabel : String) (child : Entity) : List Overlap :=
  (alistGetD (child.overlap.getD []) parentLabel []).filter
    (fun over => over.center_of_self && !(dupTruthy img over.objAddr))

/-- The disambiguation of `find_parent`: with more than one candidate, sort
descending by `sort_for_parent`; if the top candidate is fully inside,
keep only fully-inside candidates. -/
def surviveForParent (cands : List Overlap) : List Overlap :=
  if cands.length ≤ 1 then cands
  else
    match sortForParent cands with
    | [] => []
    | f :: rest =>
      if f.self_inside_other then (f :: rest).filter (fun i => i.self_inside_other)
      else f :: rest

/-- The candidate-collection and assignment part of the child loop body of
`find_parent` (everything after the `child.parent = {}` initialization),
operating on the current store `im1` and the current child entity. -/
def findParentAssign (childLabel parentLabel : String) (im1 : Image) (ci : ℕ)
    (child : Entity) : Image :=
  if child.duplicate.getD false then im1
  else
    let pol := candidateFacts im1 parentLabel child
    if pol = [] then im1
    else
      match surviveForParent pol with
      | [f] =>
        match getEntity im1 f.objAddr with
        | none => im1
        | some par =>
          let im2 := imgModify im1 (childLabel, ci)
            (fun c => { c with parent := some (alistSet (c.parent.getD []) parentLabel par.index) })
          let addChild := fun (p : Entity) =>
            { p with children := some (alistModifyD (p.children.getD []) childLabel []
                (fun l => l ++ [child.index])) }
          imgModify im2 f.objAddr addChild
      | _ => im1

/-- The body of the `for child in child_list` loop of `find_parent`, for
the child at position `ci` of the child bucket: initialize `child.parent`
to an empty dict when unset, then collect candidates and assign. -/
def findParentChildStep (childLabel parentLabel : String) (im : Image) (ci : ℕ) : Image :=
  match getEntity im (childLabel, ci) with
  | none => im
  | some child0 =>
    let im1 := if child0.parent = none
      then imgModify im (childLabel, ci) (fun c => { c with parent := some [] })
      else im
    let child := if child0.parent = none then { child0 with parent := some [] } else child0
    findParentAssign childLabel parentLabel im1 ci child

/-- The body of `find_parent` for one image: skip when either bucket is
missing or empty, make sure every parent-label entity has a children dict,
then run the child loop. -/
def findParentImage (childLabel parentLabel : String) (img : Image) : Image :=
  let childList := alistGetD img childLabel []
  if childList = [] then img
  else
    let parentBucket := alistGetD img parentLabel []
    if parentBucket = [] then img
    else
      let img1 := mapBucket img parentLabel
        (fun p => if p.children = none then { p with children := some [] } else p)
      (List.range childList.length).foldl (findParentChildStep childLabel parentLabel) img1

/-- `find_parent(all_obj, child_label, parent_label)`. -/
def findParent (all : AllObjects) (childLabel parentLabel : String) : AllObjects :=
  all.map (fun p => (p.1, findParentImage childLabel parentLabel p.2))

/-! ## Orchestrator (`get_hierarchy`) -/

/-- `get_hierarchy(all_obj, child_parent_list)`: overlaps, then duplicates,
then one `find_parent` pass per declared (child label, parent label) pair. -/
def getHierarchy (all : AllObjects) (childParentList : List (String × String)) : AllObjects :=
  childParentList.foldl (fun a p => findParent a p.1 p.2)
    (findDuplicates (findOverlappingObjects all))

/-- Read an entity through the whole collection. -/
def getEntityAll (all : AllObjects) (imageID : String) (a : Addr) : Option Entity :=
  getEntity (alistGetD all imageID []) a

/-! ## The example of `__main__` -/

/-- The three objects constructed by the `__main__` example:
`Object#0=(0.2,0.3,0.4,0.5)`, `Object#1=(0.1,0.4,0.3,0.8)`,
`Group#0=(0.1,0.1,0.5,0.5)`, all in image `i1`. -/
def demoAll : AllObjects :=
  let r1 := hierObjectInit [] "Object" "i1" (2/10) (4/10) (3/10) (5/10)
  let r2 := hierObjectInit r1.all "Object" "i1" (1/10) (3/10) (4/10) (8/10)
  let r3 := hierObjectInit r2.all "Group" "i1" (1/10) (5/10) (1/10) (5/10)
  r3.all

/-- `get_hierarchy(all, [('Object', 'Group')])` on the example objects. -/
def demoFinal : AllObjects := getHierarchy demoAll [("Object", "Group")]

/-! ## Well-formed geometry

What `HierObject.parse` + `HierObject.__init__` guarantee about the
geometry fields of every constructed entity. -/

/-- The geometry invariants established at construction: coordinates are
fixed points of 5-decimal rounding, `w`/`h` are the rounded differences and
are positive, and `area = w * h`. -/
def WFGeom (e : Entity) : Prop :=
  e.x0 = rn e.x0 ∧ e.x1 = rn e.x1 ∧ e.y0 = rn e.y0 ∧ e.y1 = rn e.y1 ∧
  e.w = rn (e.x1 - e.x0) ∧ e.h = rn (e.y1 - e.y0) ∧
  0 < e.w ∧ 0 < e.h ∧ e.area = e.w * e.h

instance : DecidablePred WFGeom := fun e => by unfold WFGeom; infer_instance

/-- A concrete intersecting pair witnessing `compare_iou_iom_bounds`. -/
def wEnt1 : Entity :=
  { label := "A", imageID := "i", x0 := 0, y0 := 0, x1 := 1, y1 := 1,
    w := 1, h := 1, xc := 1/2, yc := 1/2, area := 1, index := 0,
    overlap := none, duplicate := none, parent := none, children := none }

/-- A second concrete entity, overlapping `wEnt1` on its right half. -/
def wEnt2 : Entity :=
  { label := "B", imageID := "i", x0 := 1/2, y0 := 0, x1 := 3/2, y1 := 1,
    w := 1, h := 1, xc := 1, yc := 1/2, area := 1, index := 0,
    overlap := none, duplicate := none, parent := none, children := none }

/-- A concrete disjoint pair witnessing `compare_skips_non_intersecting`. -/
def wEnt3 : Entity :=
  { label := "B", imageID := "i", x0 := 2, y0 := 0, x1 := 3, y1 := 1,
    w := 1, h := 1, xc := 5/2, yc := 1/2, area := 1, index := 0,
    overlap := none, duplicate := none, parent := none, children := none }

/-- The tiny image holding `wEnt1` and `wEnt3`. -/
def wImg : Image := [("A", [wEnt1]), ("B", [wEnt3])]

/-- A one-entity collection for witnesses. -/
def wAll1 : AllObjects := [("i", [("A", [wEnt1])])]

/-- The single image of the example collection. -/
def demoImg : Image := alistGetD demoAll "i1" []

/-- `Object#0` as stored in the example image. -/
def demoObj0 : Entity := (getEntity demoImg ("Object", 0)).getD wEnt1

/-- `Group#0` as stored in the example image. -/
def demoGrp0 : Entity := (getEntity demoImg ("Group", 0)).getD wEnt1

/-- Two same-label boxes with IoU 0.9: `(0,0,1,1)` first, `(0,0,1,0.9)` second. -/
def swapA : AllObjects :=
  let r1 := hierObjectInit [] "L" "i" 0 1 0 1
  let r2 := hierObjectInit r1.all "L" "i" 0 1 0 (9/10)
  r2.all

/-- The same two boxes constructed in the opposite order. -/
def swapB : AllObjects :=
  let r1 := hierObjectInit [] "L" "i" 0 1 0 (9/10)
  let r2 := hierObjectInit r1.all "L" "i" 0 1 0 1
  r2.all

/-- Overlaps + duplicate flags on `swapA`. -/
def dupA : AllObjects := findDuplicates (findOverlappingObjects swapA)

/-- Overlaps + duplicate flags on `swapB`. -/
def dupB : AllObjects := findDuplicates (findOverlappingObjects swapB)

/-- Erase the relationship fields written by `find_parent` (used to state
that a pass leaves geometry, overlap facts and duplicate flags intact). -/
def relErase (e : Entity) : Entity := { e with parent := none, children := none }

/-- Erase the overlap field (used to state that the overlap pass leaves
every other field intact). -/
def ovErase (e : Entity) : Entity := { e with overlap := none }

/-! ## State-evolution predicates for the parent assigner -/

/-- The entity at `a` exists and has its `parent` dict allocated. -/
def parentSetAt (im : Image) (a : Addr) : Prop :=
  ∃ e, getEntity im a = some e ∧ e.parent ≠ none

/-- The entity at `a` exists and has its `children` dict allocated. -/
def childrenSetAt (im : Image) (a : Addr) : Prop :=
  ∃ e, getEntity im a = some e ∧ e.children ≠ none

/-- The member `x` is in the `children[key]` list of the entity at `a`. -/
def childMemAt (im : Image) (a : Addr) (key : String) (x : ℕ) : Prop :=
  ∃ e, getEntity im a = some e ∧ x ∈ alistGetD (e.children.getD []) key []

/-- What one `find_parent` mutation step may do to the store: it never
touches geometry, overlap facts or duplicate flags, it never deallocates a
`parent` or `children` dict, and it never removes a recorded child. -/
def Evolves (im im' : Image) : Prop :=
  (∀ a, (getEntity im' a).map relErase = (getEntity im a).map relErase) ∧
  (∀ a, parentSetAt im a → parentSetAt im' a) ∧
  (∀ a, childrenSetAt im a → childrenSetAt im' a) ∧
  (∀ a key x, childMemAt im a key x → childMemAt im' a key x)

/-- Every entity of the collection still has unset (`None`) parent and
children fields, as construction leaves them. -/
def FreshAll (all : AllObjects) : Prop :=
  ∀ imgId a e, getEntityAll all imgId a = some e → e.parent = none ∧ e.children = none

/-- The projection (parent, children): what construction leaves `none` and
only `find_parent` ever writes. -/
def pcProj (e : Entity) :
    Option (List (String × ℕ)) × Option (List (String × List ℕ)) :=
  (e.parent, e.children)

/-- Every duplicate-flagged entity of the image carries an empty parent
dict and only empty children lists. -/
def DupClean (im : Image) : Prop :=
  ∀ a e, getEntity im a = some e → e.duplicate = some true →
    e.parent.getD [] = [] ∧ ∀ pr ∈ e.children.getD [], pr.2 = []

/-- `DupClean` across the whole collection. -/
def DupCleanAll (all : AllObjects) : Prop :=
  ∀ imgId a e, getEntityAll all imgId a = some e → e.duplicate = some true →
    e.parent.getD [] = [] ∧ ∀ pr ∈ e.children.getD [], pr.2 = []

/-- Two same-label `G` boxes with IoU 0.7 (the first becomes the duplicate)
and an `O` child whose center lies inside only the duplicate `G` box. -/
def dupParentAll : AllObjects :=
  let r1 := hierObjectInit [] "G" "i" 0 1 0 1
  let r2 := hierObjectInit r1.all "G" "i" 0 1 (3/10) 1
  let r3 := hierObjectInit r2.all "O" "i" (1/10) (3/10) (1/20) (1/4)
  r3.all

/-- `get_hierarchy` on `dupParentAll` with the pair `(O, G)`. -/
def dupParentFinal : AllObjects := getHierarchy dupParentAll [("O", "G")]

/-- Overlap facts + duplicate flags computed on the demo objects: the state
in which `find_parent` runs inside `get_hierarchy`. -/
def demoDup : AllObjects := findDuplicates (findOverlappingObjects demoAll)

/-- The populated demo image. -/
def demoDupImg : Image := alistGetD demoDup "i1" []

/-- The first `Object` entity of the populated demo image. -/
def demoChild : Entity := (getEntity demoDupImg ("Object", 0)).getD wEnt1

/-- The outcome C1 claims for one child: after the pass the child still
exists with unchanged geometry/overlap/duplicate, and its `parent[pl]`
entry together with the chosen parent's `children[cl]` list reflect the
surviving candidates: a unique survivor is assigned (bidirectionally), any
other number of survivors leaves no entry. -/
def AssignOutcome (img final : Image) (cl pl : String) (ci : ℕ) (child : Entity) : Prop :=
  ∃ child', getEntity final (cl, ci) = some child' ∧
    relErase child' = relErase child ∧
    (match surviveForParent (candidateFacts img pl child) with
     | [f] => alistGet (child'.parent.getD []) pl = some f.index ∧
         childMemAt final f.objAddr cl child.index
     | _ => alistGet (child'.parent.getD []) pl = none)

/-- The overlap facts the entity at `a` stores under label `c` that
reference the entity at `b`. -/
def factsAt (im : Image) (a b : Addr) (c : String) : List Overlap :=
  match getEntity im a with
  | some e => (alistGetD (e.overlap.getD []) c []).filter (fun o => decide (o.objAddr = b))
  | none => []

/-- The bucket keys of the image are pairwise distinct (Python dict keys). -/
def keysNodup (img : Image) : Prop := (img.map Prod.fst).Nodup

instance : DecidablePred keysNodup := fun img => by unfold keysNodup; infer_instance

/-! ## Rounding lemmas -/

theorem roundHalfEven_intCast (n : ℤ) : roundHalfEven (n : ℚ) = n := by
  unfold roundHalfEven
  simp

theorem roundHalfEven_nonneg {x : ℚ} (hx : 0 ≤ x) : 0 ≤ roundHalfEven x := by
  have hf : (0 : ℤ) ≤ ⌊x⌋ := Int.floor_nonneg.mpr hx
  simp only [roundHalfEven]
  split_ifs <;> omega

theorem roundHalfEven_le {x : ℚ} {N : ℤ} (hx : x ≤ (N : ℚ)) : roundHalfEven x ≤ N := by
  simp only [roundHalfEven]
  have hf : ⌊x⌋ ≤ N := by
    have := Int.floor_le_floor hx
    simpa using this
  have hfx : (⌊x⌋ : ℚ) ≤ x := Int.floor_le x
  split_ifs with h1 h2 h3
  · exact hf
  · -- the fractional part is positive, so the floor is strictly below N
    have hlt : (⌊x⌋ : ℚ) < x := by linarith
    have : (⌊x⌋ : ℚ) < (N : ℚ) := lt_of_lt_of_le hlt hx
    have : ⌊x⌋ < N := by exact_mod_cast this
    omega
  · exact hf
  · have hlt : (⌊x⌋ : ℚ) < x := by linarith
    have : (⌊x⌋ : ℚ) < (N : ℚ) := lt_of_lt_of_le hlt hx
    have : ⌊x⌋ < N := by exact_mod_cast this
    omega

theorem rn_nonneg {x : ℚ} (hx : 0 ≤ x) : 0 ≤ rn x := by
  unfold rn
  have h : (0 : ℤ) ≤ roundHalfEven (x * 100000) :=
    roundHalfEven_nonneg (by positivity)
  have : (0 : ℚ) ≤ (roundHalfEven (x * 100000) : ℚ) := by exact_mod_cast h
  positivity

theorem rn_le_one {x : ℚ} (hx : x ≤ 1) : rn x ≤ 1 := by
  unfold rn
  have h : roundHalfEven (x * 100000) ≤ (100000 : ℤ) := by
    apply roundHalfEven_le
    push_cast
    linarith
  rw [div_le_one (by norm_num)]
  exact_mod_cast h

theorem rn_eq_self {x : ℚ} (h : ∃ k : ℤ, x * 100000 = (k : ℚ)) : rn x = x := by
  obtain ⟨k, hk⟩ := h
  unfold rn
  rw [hk, roundHalfEven_intCast]
  field_simp at hk ⊢
  linarith

theorem rn_mul_isInt (x : ℚ) : ∃ k : ℤ, rn x * 100000 = (k : ℚ) := by
  refine ⟨roundHalfEven (x * 100000), ?_⟩
  unfold rn
  field_simp

theorem rn_sub_rn (a b : ℚ) : rn (rn a - rn b) = rn a - rn b := by
  obtain ⟨ka, hka⟩ := rn_mul_isInt a
  obtain ⟨kb, hkb⟩ := rn_mul_isInt b
  exact rn_eq_self ⟨ka - kb, by push_cast; linarith [hka, hkb]⟩

theorem WFGeom.w_eq {e : Entity} (h : WFGeom e) : e.w = e.x1 - e.x0 := by
  obtain ⟨h0, h1, _, _, hw, _, _, _, _⟩ := h
  rw [hw, h0, h1, rn_sub_rn, ← h0, ← h1]

theorem WFGeom.h_eq {e : Entity} (h : WFGeom e) : e.h = e.y1 - e.y0 := by
  obtain ⟨_, _, h0, h1, _, hh, _, _, _⟩ := h
  rw [hh, h0, h1, rn_sub_rn, ← h0, ← h1]

theorem WFGeom.area_pos {e : Entity} (h : WFGeom e) : 0 < e.area := by
  obtain ⟨_, _, _, _, _, _, hw, hh, ha⟩ := h
  rw [ha]; exact mul_pos hw hh

/-- The intersection area is positive and bounded by each box's area. -/
theorem intersectionArea_bounds {e1 e2 : Entity} (h1 : WFGeom e1) (h2 : WFGeom e2)
    (hint : hasIntersection e1 e2 = true) :
    0 < intersectionArea e1 e2 ∧
    intersectionArea e1 e2 ≤ e1.area ∧ intersectionArea e1 e2 ≤ e2.area := by
  have hw : 0 < min e1.x1 e2.x1 - max e1.x0 e2.x0 := by
    have := hint
    unfold hasIntersection at this
    simp only [Bool.and_eq_true, decide_eq_true_eq] at this
    exact this.1
  have hh : 0 < min e1.y1 e2.y1 - max e1.y0 e2.y0 := by
    have := hint
    unfold hasIntersection at this
    simp only [Bool.and_eq_true, decide_eq_true_eq] at this
    exact this.2
  have harea : intersectionArea e1 e2 =
      (min e1.x1 e2.x1 - max e1.x0 e2.x0) * (min e1.y1 e2.y1 - max e1.y0 e2.y0) := by
    unfold intersectionArea
    rw [if_neg]
    push_neg
    exact ⟨hw, hh⟩
  have hb1 : intersectionArea e1 e2 ≤ e1.area := by
    rw [harea, h1.2.2.2.2.2.2.2.2, h1.w_eq, h1.h_eq]
    apply mul_le_mul
    · have := min_le_left e1.x1 e2.x1
      have := le_max_left e1.x0 e2.x0
      linarith
    · have := min_le_left e1.y1 e2.y1
      have := le_max_left e1.y0 e2.y0
      linarith
    · linarith
    · linarith [h1.w_eq, h1.2.2.2.2.2.2.1]
  have hb2 : intersectionArea e1 e2 ≤ e2.area := by
    rw [harea, h2.2.2.2.2.2.2.2.2, h2.w_eq, h2.h_eq]
    apply mul_le_mul
    · have := min_le_right e1.x1 e2.x1
      have := le_max_right e1.x0 e2.x0
      linarith
    · have := min_le_right e1.y1 e2.y1
      have := le_max_right e1.y0 e2.y0
      linarith
    · linarith
    · linarith [h2.w_eq, h2.2.2.2.2.2.2.1]
  refine ⟨?_, hb1, hb2⟩
  rw [harea]
  exact mul_pos hw hh

/-- C6: for every intersecting pair, the `iou` and `iom` stored in both
mirrored overlap facts lie in `[0, 1]` (the mirrored facts carry equal
values by construction). -/
theorem compare_iou_iom_bounds (e1 e2 : Entity) (a1 a2 : Addr)
    (h1 : WFGeom e1) (h2 : WFGeom e2) (hint : hasIntersection e1 e2 = true) :
    (0 ≤ (mkOverlapPair e1 e2 a1 a2).1.iou ∧ (mkOverlapPair e1 e2 a1 a2).1.iou ≤ 1 ∧
     0 ≤ (mkOverlapPair e1 e2 a1 a2).1.iom ∧ (mkOverlapPair e1 e2 a1 a2).1.iom ≤ 1) ∧
    (mkOverlapPair e1 e2 a1 a2).2.iou = (mkOverlapPair e1 e2 a1 a2).1.iou ∧
    (mkOverlapPair e1 e2 a1 a2).2.iom = (mkOverlapPair e1 e2 a1 a2).1.iom := by
  obtain ⟨hpos, hb1, hb2⟩ := intersectionArea_bounds h1 h2 hint
  have ha1 : 0 < e1.area := h1.area_pos
  have ha2 : 0 < e2.area := h2.area_pos
  have hiou : (mkOverlapPair e1 e2 a1 a2).1.iou =
      rn (intersectionArea e1 e2 / (e1.area + e2.area - intersectionArea e1 e2)) := rfl
  have hiom : (mkOverlapPair e1 e2 a1 a2).1.iom =
      rn (intersectionArea e1 e2 / min e1.area e2.area) := rfl
  have hu : 0 < e1.area + e2.area - intersectionArea e1 e2 := by linarith
  have hq1 : 0 ≤ intersectionArea e1 e2 / (e1.area + e2.area - intersectionArea e1 e2) :=
    div_nonneg (le_of_lt hpos) (le_of_lt hu)
  have hq2 : intersectionArea e1 e2 / (e1.area + e2.area - intersectionArea e1 e2) ≤ 1 := by
    rw [div_le_one hu]
    linarith
  have hm : 0 < min e1.area e2.area := lt_min ha1 ha2
  have hq3 : 0 ≤ intersectionArea e1 e2 / min e1.area e2.area :=
    div_nonneg (le_of_lt hpos) (le_of_lt hm)
  have hq4 : intersectionArea e1 e2 / min e1.area e2.area ≤ 1 := by
    rw [div_le_one hm]
    exact le_min hb1 hb2
  refine ⟨⟨?_, ?_, ?_, ?_⟩, rfl, rfl⟩
  · rw [hiou]; exact rn_nonneg hq1
  · rw [hiou]; exact rn_le_one hq2
  · rw [hiom]; exact rn_nonneg hq3
  · rw [hiom]; exact rn_le_one hq4

theorem compare_iou_iom_bounds_witness :
    WFGeom wEnt1 ∧ WFGeom wEnt2 ∧ hasIntersection wEnt1 wEnt2 = true ∧
    (0 ≤ (mkOverlapPair wEnt1 wEnt2 ("A", 0) ("B", 0)).1.iou ∧
     (mkOverlapPair wEnt1 wEnt2 ("A", 0) ("B", 0)).1.iou ≤ 1 ∧
     0 ≤ (mkOverlapPair wEnt1 wEnt2 ("A", 0) ("B", 0)).1.iom ∧
     (mkOverlapPair wEnt1 wEnt2 ("A", 0) ("B", 0)).1.iom ≤ 1) :=
  ⟨by decide, by decide, by decide,
   (compare_iou_iom_bounds wEnt1 wEnt2 ("A", 0) ("B", 0)
     (by decide) (by decide) (by decide)).1⟩

/-- C7: a pair with non-positive overlap width or height produces no
overlap fact on either side: `has_intersection` is false and `compare`
leaves the image untouched. -/
theorem compare_skips_non_intersecting (img : Image) (a1 a2 : Addr) (e1 e2 : Entity)
    (h1 : getEntity img a1 = some e1) (h2 : getEntity img a2 = some e2)
    (h : min e1.x1 e2.x1 - max e1.x0 e2.x0 ≤ 0 ∨ min e1.y1 e2.y1 - max e1.y0 e2.y0 ≤ 0) :
    hasIntersection e1 e2 = false ∧ compareStep img a1 a2 = img := by
  have hint : hasIntersection e1 e2 = false := by
    unfold hasIntersection
    rcases h with h | h
    · have : ¬ (0 < min e1.x1 e2.x1 - max e1.x0 e2.x0) := not_lt.mpr h
      simp [this]
    · have : ¬ (0 < min e1.y1 e2.y1 - max e1.y0 e2.y0) := not_lt.mpr h
      simp [this]
  refine ⟨hint, ?_⟩
  unfold compareStep
  rw [h1, h2]
  simp [hint]

theorem compare_skips_non_intersecting_witness :
    hasIntersection wEnt1 wEnt3 = false ∧ compareStep wImg ("A", 0) ("B", 0) = wImg :=
  compare_skips_non_intersecting wImg ("A", 0) ("B", 0) wEnt1 wEnt3
    (by decide) (by decide) (Or.inl (by norm_num [wEnt1, wEnt3]))

/-- C8: construction fails exactly when the rounded width, rounded height,
or area is non-positive; positive rounded width and height guarantee
success. -/
theorem init_validation (all : AllObjects) (lbl imgId : String) (xmin xmax ymin ymax : ℚ) :
    ((hierObjectInit all lbl imgId xmin xmax ymin ymax).entity = none ↔
      rn (rn xmax - rn xmin) ≤ 0 ∨ rn (rn ymax - rn ymin) ≤ 0 ∨
        rn (rn xmax - rn xmin) * rn (rn ymax - rn ymin) ≤ 0) ∧
    (0 < rn (rn xmax - rn xmin) → 0 < rn (rn ymax - rn ymin) →
      ∃ e, (hierObjectInit all lbl imgId xmin xmax ymin ymax).entity = some e) := by
  constructor
  · constructor
    · intro hnone
      by_contra hc
      push_neg at hc
      obtain ⟨hw, hh, ha⟩ := hc
      simp [hierObjectInit, hw, hh, ha] at hnone
    · intro hor
      rcases hor with h | h | h
      · simp [hierObjectInit, not_lt.mpr h]
      · rcases lt_or_le 0 (rn (rn xmax - rn xmin)) with hw | hw
        · simp [hierObjectInit, hw, not_lt.mpr h]
        · simp [hierObjectInit, not_lt.mpr hw]
      · rcases lt_or_le 0 (rn (rn xmax - rn xmin)) with hw | hw
        · rcases lt_or_le 0 (rn (rn ymax - rn ymin)) with hh | hh
          · simp [hierObjectInit, hw, hh, not_lt.mpr h]
          · simp [hierObjectInit, hw, not_lt.mpr hh]
        · simp [hierObjectInit, not_lt.mpr hw]
  · intro hw hh
    have ha : 0 < rn (rn xmax - rn xmin) * rn (rn ymax - rn ymin) := mul_pos hw hh
    have hne : (hierObjectInit all lbl imgId xmin xmax ymin ymax).entity ≠ none := by
      simp [hierObjectInit, hw, hh, ha]
    exact Option.ne_none_iff_exists'.mp hne

theorem init_validation_witness :
    (((hierObjectInit [] "L" "i" 0 0 0 1).entity = none ↔
        rn (rn 0 - rn 0) ≤ 0 ∨ rn (rn 1 - rn 0) ≤ 0 ∨
          rn (rn 0 - rn 0) * rn (rn 1 - rn 0) ≤ 0) ∧
      (0 < rn (rn 1 - rn 0) ∧ 0 < rn (rn 1 - rn 0))) ∧
    ∃ e, (hierObjectInit [] "L" "i" 0 1 0 1).entity = some e :=
  ⟨⟨(init_validation [] "L" "i" 0 0 0 1).1, by decide, by decide⟩,
   (init_validation [] "L" "i" 0 1 0 1).2 (by decide) (by decide)⟩

/-- C9: a failed construction leaves the collection exactly as it was:
all validation checks run before the append. -/
theorem init_failure_preserves_all (all : AllObjects) (lbl imgId : String)
    (xmin xmax ymin ymax : ℚ)
    (h : (hierObjectInit all lbl imgId xmin xmax ymin ymax).entity = none) :
    (hierObjectInit all lbl imgId xmin xmax ymin ymax).all = all := by
  simp only [hierObjectInit] at h ⊢
  split_ifs at h ⊢ <;> simp_all

theorem init_failure_preserves_all_witness :
    (hierObjectInit [("i", [("L", [wEnt1])])] "L" "i" 0 0 0 1).entity = none ∧
    (hierObjectInit [("i", [("L", [wEnt1])])] "L" "i" 0 0 0 1).all =
      [("i", [("L", [wEnt1])])] :=
  ⟨by decide,
   init_failure_preserves_all [("i", [("L", [wEnt1])])] "L" "i" 0 0 0 1 (by decide)⟩

/-- C5: the `__main__` end-to-end scenario: `Group#0.children['Object'] = [0]`,
`Object#0.parent['Group'] = 0`, and `Object#1.parent` has no `'Group'` entry,
the center of `Object#1` lying outside `Group#0`. -/
theorem demo_hierarchy_result :
    (getEntityAll demoFinal "i1" ("Group", 0)).map
      (fun e => alistGet (e.children.getD []) "Object") = some (some [0]) ∧
    (getEntityAll demoFinal "i1" ("Object", 0)).map
      (fun e => alistGet (e.parent.getD []) "Group") = some (some 0) ∧
    (getEntityAll demoFinal "i1" ("Object", 1)).map
      (fun e => alistGet (e.parent.getD []) "Group") = some none ∧
    ((getEntityAll demoFinal "i1" ("Object", 1)).bind (fun o1 =>
      (getEntityAll demoFinal "i1" ("Group", 0)).map (fun g =>
        centerIsInside o1 g))) = some false := by
  decide

/-! ## Lookup lemmas for mapped collections -/

theorem alistGet_mapSnd {α β : Type} (g : α → β) (l : List (String × α)) (k : String) :
    alistGet (l.map (fun p => (p.1, g p.2))) k = (alistGet l k).map g := by
  induction l with
  | nil => rfl
  | cons hd tl ih =>
    obtain ⟨hk, hv⟩ := hd
    by_cases h : hk = k <;> simp [alistGet, h, ih]

theorem alistGetD_mapSnd {α β : Type} (g : α → β) (l : List (String × α)) (k : String) (d : α) :
    alistGetD (l.map (fun p => (p.1, g p.2))) k (g d) = g (alistGetD l k d) := by
  unfold alistGetD
  rw [alistGet_mapSnd]
  cases alistGet l k <;> rfl

theorem getEntity_mapImage (f : Entity → Entity) (img : Image) (a : Addr) :
    getEntity (img.map (fun q => (q.1, q.2.map f))) a = (getEntity img a).map f := by
  unfold getEntity alistGetD
  rw [alistGet_mapSnd]
  cases alistGet img a.1 with
  | none => rfl
  | some bucket => simp

/-! ## Duplicate resolver: C2 -/

theorem redundantAndNotLast_iff (e : Entity) :
    redundantAndNotLast e = true ↔
      ∃ o ∈ alistGetD (e.overlap.getD []) e.label [], (1 : ℚ)/2 < o.iou ∧ e.index < o.index := by
  unfold redundantAndNotLast
  rw [List.any_eq_true]
  simp

theorem getEntityAll_findDuplicates_eq (all : AllObjects) (imgId : String) (a : Addr) :
    getEntityAll (findDuplicates all) imgId a =
      (getEntityAll all imgId a).map
        (fun e => { e with duplicate := some (redundantAndNotLast e) }) := by
  unfold getEntityAll
  have himg : alistGetD (findDuplicates all) imgId [] =
      (alistGetD all imgId []).map
        (fun q => (q.1, q.2.map
          (fun e => { e with duplicate := some (redundantAndNotLast e) }))) := by
    have := alistGetD_mapSnd
      (fun img : Image => img.map (fun q => (q.1, q.2.map
        (fun e => { e with duplicate := some (redundantAndNotLast e) }))))
      all imgId []
    simpa [findDuplicates] using this
  rw [himg, getEntity_mapImage]

theorem getEntityAll_findDuplicates (all : AllObjects) (imgId : String) (a : Addr) (e : Entity)
    (h : getEntityAll all imgId a = some e) :
    getEntityAll (findDuplicates all) imgId a =
      some { e with duplicate := some (redundantAndNotLast e) } := by
  rw [getEntityAll_findDuplicates_eq, h]
  rfl

/-- C2: after `find_duplicates`, every entity's flag is
`redundant_and_not_last`, which holds iff some same-label overlap fact has
`iou > 0.5` and a strictly larger index; an entity with no same-label facts
is never flagged; and for the two-box IoU-0.9 scenario, the lower-index box
is flagged in both construction orders, so swapping the order swaps the
flagged box. -/
theorem find_duplicates_spec :
    (∀ e : Entity, redundantAndNotLast e = true ↔
      ∃ o ∈ alistGetD (e.overlap.getD []) e.label [], (1 : ℚ)/2 < o.iou ∧ e.index < o.index) ∧
    (∀ (all : AllObjects) (imgId : String) (a : Addr) (e : Entity),
      getEntityAll all imgId a = some e →
      getEntityAll (findDuplicates all) imgId a =
        some { e with duplicate := some (redundantAndNotLast e) }) ∧
    (∀ e : Entity, alistGetD (e.overlap.getD []) e.label [] = [] →
      redundantAndNotLast e = false) ∧
    ((getEntityAll dupA "i" ("L", 0)).map (fun e => (e.y1, e.duplicate)) =
        some (1, some true) ∧
     (getEntityAll dupA "i" ("L", 1)).map (fun e => (e.y1, e.duplicate)) =
        some (9/10, some false) ∧
     (getEntityAll dupB "i" ("L", 0)).map (fun e => (e.y1, e.duplicate)) =
        some (9/10, some true) ∧
     (getEntityAll dupB "i" ("L", 1)).map (fun e => (e.y1, e.duplicate)) =
        some (1, some false)) :=
  ⟨redundantAndNotLast_iff, getEntityAll_findDuplicates,
   fun e h => by simp [redundantAndNotLast, h], by decide⟩

theorem find_duplicates_spec_witness :
    getEntityAll (findDuplicates wAll1) "i" ("A", 0) =
      some { wEnt1 with duplicate := some (redundantAndNotLast wEnt1) } :=
  find_duplicates_spec.2.1 wAll1 "i" ("A", 0) wEnt1 (by decide)

/-! ## Store-access lemmas -/

theorem listModify_get {α : Type} (l : List α) (i j : ℕ) (f : α → α) :
    (listModify l i f).get? j = if j = i then (l.get? j).map f else l.get? j := by
  induction l generalizing i j with
  | nil => unfold listModify; split <;> rfl
  | cons x rest ih =>
    cases i with
    | zero =>
      cases j with
      | zero => simp [listModify]
      | succ j => simp [listModify]
    | succ i =>
      cases j with
      | zero => simp [listModify]
      | succ j =>
        have := ih i j
        simp only [listModify, List.get?]
        rw [this]
        by_cases h : j = i
        · simp [h]
        · simp [h, fun hh => h (Nat.succ_injective hh)]

theorem getEntity_cons (l : String) (es : List Entity) (tl : Image) (a : Addr) :
    getEntity ((l, es) :: tl) a = if l = a.1 then es.get? a.2 else getEntity tl a := by
  by_cases h : l = a.1 <;> simp [getEntity, alistGetD, alistGet, h]

theorem getEntity_imgModify (img : Image) (r : Addr) (f : Entity → Entity) (a : Addr) :
    getEntity (imgModify img r f) a =
      if a = r then (getEntity img a).map f else getEntity img a := by
  induction img with
  | nil =>
    unfold imgModify
    split <;> simp [getEntity, alistGetD, alistGet]
  | cons hd tl ih =>
    obtain ⟨l, es⟩ := hd
    unfold imgModify
    by_cases hl : l = r.1
    · rw [if_pos hl, getEntity_cons, getEntity_cons]
      by_cases ha : l = a.1
      · rw [if_pos ha, if_pos ha, listModify_get]
        by_cases h2 : a.2 = r.2
        · have har : a = r := Prod.ext (ha.symm.trans hl) h2
          simp [h2, har]
        · have har : a ≠ r := fun hh => h2 (by rw [hh])
          simp [h2, har]
      · have har : a ≠ r := by
          intro hh
          rw [hh] at ha
          exact ha hl
        simp [ha, har]
    · rw [if_neg hl, getEntity_cons, getEntity_cons]
      by_cases ha : l = a.1
      · have har : a ≠ r := by
          intro hh
          rw [hh] at ha
          exact hl ha
        simp [ha, har]
      · simp [ha, ih]

theorem getEntity_mapBucket (img : Image) (key : String) (f : Entity → Entity) (a : Addr) :
    getEntity (mapBucket img key f) a =
      if a.1 = key then (getEntity img a).map f else getEntity img a := by
  induction img with
  | nil =>
    unfold mapBucket
    split <;> simp [getEntity, alistGetD, alistGet]
  | cons hd tl ih =>
    obtain ⟨l, es⟩ := hd
    unfold mapBucket
    by_cases hl : l = key
    · rw [if_pos hl, getEntity_cons, getEntity_cons]
      by_cases ha : l = a.1
      · have : a.1 = key := ha ▸ hl
        simp [ha, this]
      · by_cases h1 : a.1 = key
        · exact absurd (hl.trans h1.symm) ha
        · simp [ha, h1]
    · rw [if_neg hl, getEntity_cons, getEntity_cons]
      by_cases ha : l = a.1
      · have : ¬ a.1 = key := fun hh => hl (ha.trans hh)
        simp [ha, this]
      · simp [ha, ih]

theorem alistGet_alistSet {α : Type} (d : List (String × α)) (k key : String) (v : α) :
    alistGet (alistSet d k v) key = if key = k then some v else alistGet d key := by
  induction d with
  | nil =>
    by_cases h : key = k
    · simp [alistSet, alistGet, h]
    · simp [alistSet, alistGet, h, Ne.symm h]
  | cons hd tl ih =>
    obtain ⟨dk, dv⟩ := hd
    by_cases h1 : dk = k
    · by_cases h2 : key = dk
      · have h3 : key = k := h2.trans h1
        simp [alistSet, alistGet, h1, h2.symm, h3]
      · have hkk : ¬ key = k := fun hh => h2 (hh.trans h1.symm)
        simp [alistSet, alistGet, h1, Ne.symm h2, hkk, Ne.symm hkk]
    · by_cases h2 : key = dk
      · have hkk : ¬ key = k := fun hh => h1 (h2.symm.trans hh)
        simp [alistSet, alistGet, h1, h2.symm, hkk]
      · simp [alistSet, alistGet, h1, Ne.symm h2, ih]

theorem alistGetD_modifyD {α : Type} (d : List (String × α)) (k key : String)
    (dflt : α) (f : α → α) :
    alistGetD (alistModifyD d k dflt f) key dflt =
      if key = k then f (alistGetD d k dflt) else alistGetD d key dflt := by
  induction d with
  | nil =>
    by_cases h : key = k
    · simp [alistModifyD, alistGetD, alistGet, h]
    · simp [alistModifyD, alistGetD, alistGet, h, Ne.symm h]
  | cons hd tl ih =>
    obtain ⟨dk, dv⟩ := hd
    by_cases h1 : dk = k
    · by_cases h2 : key = dk
      · have h3 : key = k := h2.trans h1
        simp [alistModifyD, alistGetD, alistGet, h1, h2.symm, h3]
      · have hkk : ¬ key = k := fun hh => h2 (hh.trans h1.symm)
        simp [alistModifyD, alistGetD, alistGet, h1, Ne.symm h2, hkk, Ne.symm hkk]
    · by_cases h2 : key = dk
      · have hkk : ¬ key = k := fun hh => h1 (h2.symm.trans hh)
        simp [alistModifyD, alistGetD, alistGet, h1, h2.symm, hkk]
      · have ih2 := ih
        simp only [alistGetD] at ih2
        simp [alistModifyD, alistGetD, alistGet, h1, Ne.symm h2, ih2]

/-! ## Evolution lemmas for the parent assigner -/

theorem evolves_refl (im : Image) : Evolves im im :=
  ⟨fun _ => rfl, fun _ h => h, fun _ h => h, fun _ _ _ h => h⟩

theorem evolves_trans {im1 im2 im3 : Image} (h1 : Evolves im1 im2) (h2 : Evolves im2 im3) :
    Evolves im1 im3 :=
  ⟨fun a => (h2.1 a).trans (h1.1 a),
   fun a hp => h2.2.1 a (h1.2.1 a hp),
   fun a hc => h2.2.2.1 a (h1.2.2.1 a hc),
   fun a k x hm => h2.2.2.2 a k x (h1.2.2.2 a k x hm)⟩

theorem evolves_imgModify (im : Image) (r : Addr) (f : Entity → Entity)
    (hrel : ∀ e, relErase (f e) = relErase e)
    (hpar : ∀ e, e.parent ≠ none → (f e).parent ≠ none)
    (hch : ∀ e, e.children ≠ none → (f e).children ≠ none)
    (hmem : ∀ e key x, x ∈ alistGetD (e.children.getD []) key [] →
      x ∈ alistGetD ((f e).children.getD []) key []) :
    Evolves im (imgModify im r f) := by
  refine ⟨?_, ?_, ?_, ?_⟩
  · intro a
    rw [getEntity_imgModify]
    split
    · cases getEntity im a <;> simp [hrel]
    · rfl
  · rintro a ⟨e, he, hp⟩
    rw [parentSetAt] at *
    rw [getEntity_imgModify]
    split
    · exact ⟨f e, by rw [he]; rfl, hpar e hp⟩
    · exact ⟨e, he, hp⟩
  · rintro a ⟨e, he, hc⟩
    rw [childrenSetAt] at *
    rw [getEntity_imgModify]
    split
    · exact ⟨f e, by rw [he]; rfl, hch e hc⟩
    · exact ⟨e, he, hc⟩
  · rintro a key x ⟨e, he, hm⟩
    rw [childMemAt] at *
    rw [getEntity_imgModify]
    split
    · exact ⟨f e, by rw [he]; rfl, hmem e key x hm⟩
    · exact ⟨e, he, hm⟩

theorem evolves_mapBucket (im : Image) (key : String) (f : Entity → Entity)
    (hrel : ∀ e, relErase (f e) = relErase e)
    (hpar : ∀ e, e.parent ≠ none → (f e).parent ≠ none)
    (hch : ∀ e, e.children ≠ none → (f e).children ≠ none)
    (hmem : ∀ e k x, x ∈ alistGetD (e.children.getD []) k [] →
      x ∈ alistGetD ((f e).children.getD []) k []) :
    Evolves im (mapBucket im key f) := by
  refine ⟨?_, ?_, ?_, ?_⟩
  · intro a
    rw [getEntity_mapBucket]
    split
    · cases getEntity im a <;> simp [hrel]
    · rfl
  · rintro a ⟨e, he, hp⟩
    rw [parentSetAt] at *
    rw [getEntity_mapBucket]
    split
    · exact ⟨f e, by rw [he]; rfl, hpar e hp⟩
    · exact ⟨e, he, hp⟩
  · rintro a ⟨e, he, hc⟩
    rw [childrenSetAt] at *
    rw [getEntity_mapBucket]
    split
    · exact ⟨f e, by rw [he]; rfl, hch e hc⟩
    · exact ⟨e, he, hc⟩
  · rintro a k x ⟨e, he, hm⟩
    rw [childMemAt] at *
    rw [getEntity_mapBucket]
    split
    · exact ⟨f e, by rw [he]; rfl, hmem e k x hm⟩
    · exact ⟨e, he, hm⟩

theorem findParentAssign_evolves (cl pl : String) (im1 : Image) (ci : ℕ) (child : Entity) :
    Evolves im1 (findParentAssign cl pl im1 ci child) := by
  simp only [findParentAssign]
  split
  · exact evolves_refl _
  · split
    · exact evolves_refl _
    · split
      · split
        · exact evolves_refl _
        · refine evolves_trans (evolves_imgModify _ _ _ ?_ ?_ ?_ ?_)
            (evolves_imgModify _ _ _ ?_ ?_ ?_ ?_)
          · intro e; rfl
          · intro e hp; simp
          · intro e hc; exact hc
          · intro e key x hm; exact hm
          · intro e; rfl
          · intro e hp; exact hp
          · intro e hc; simp
          · intro e key x hm
            simp only [Option.getD_some]
            rw [alistGetD_modifyD]
            split
            · rename_i hkey
              rw [hkey] at hm
              exact List.mem_append_left _ hm
            · exact hm
      · exact evolves_refl _

theorem findParentChildStep_evolves (cl pl : String) (im : Image) (ci : ℕ) :
    Evolves im (findParentChildStep cl pl im ci) := by
  unfold findParentChildStep
  cases hcg : getEntity im (cl, ci) with
  | none => exact evolves_refl _
  | some child0 =>
    simp only []
    apply evolves_trans ?h1 (findParentAssign_evolves cl pl _ ci _)
    split
    · exact evolves_imgModify _ _ _ (fun e => rfl) (fun e _ => by simp)
        (fun e hc => hc) (fun e key x hm => hm)
    · exact evolves_refl _

theorem foldl_childStep_evolves (cl pl : String) (L : List ℕ) :
    ∀ im : Image, Evolves im (L.foldl (findParentChildStep cl pl) im) := by
  induction L with
  | nil => intro im; exact evolves_refl _
  | cons x xs ih =>
    intro im
    exact evolves_trans (findParentChildStep_evolves cl pl im x) (ih _)

theorem findParentImage_skip (cl pl : String) (img : Image)
    (h : alistGetD img cl [] = [] ∨ alistGetD img pl [] = []) :
    findParentImage cl pl img = img := by
  unfold findParentImage
  rcases h with h | h
  · simp [h]
  · by_cases hc : alistGetD img cl [] = []
    · simp [hc]
    · simp [hc, h]

theorem initChildrenBucket_evolves (im : Image) (pl : String) :
    Evolves im (mapBucket im pl
      (fun p => if p.children = none then { p with children := some [] } else p)) := by
  refine evolves_mapBucket _ _ _ ?_ ?_ ?_ ?_
  · intro e; split <;> rfl
  · intro e hp; split <;> exact hp
  · intro e hc
    split
    · simp
    · exact hc
  · intro e k x hm
    split
    · rename_i hnone
      rw [hnone] at hm
      simp [alistGetD, alistGet] at hm
    · exact hm

theorem findParentImage_evolves (cl pl : String) (img : Image) :
    Evolves img (findParentImage cl pl img) := by
  simp only [findParentImage]
  split
  · exact evolves_refl _
  · split
    · exact evolves_refl _
    · exact evolves_trans (initChildrenBucket_evolves _ _) (foldl_childStep_evolves cl pl _ _)

theorem evolves_some {im im' : Image} (hev : Evolves im im') {a : Addr} {e : Entity}
    (h : getEntity im a = some e) :
    ∃ e', getEntity im' a = some e' ∧ relErase e' = relErase e := by
  have hmap := hev.1 a
  rw [h] at hmap
  cases hgr : getEntity im' a with
  | none => rw [hgr] at hmap; exact absurd hmap (by simp)
  | some e' =>
    rw [hgr] at hmap
    simp only [Option.map_some'] at hmap
    exact ⟨e', rfl, Option.some.inj hmap⟩

theorem childStep_sets_parent (cl pl : String) (im : Image) (ci : ℕ) (e0 : Entity)
    (h : getEntity im (cl, ci) = some e0) :
    parentSetAt (findParentChildStep cl pl im ci) (cl, ci) := by
  unfold findParentChildStep
  rw [h]
  simp only []
  have h1 : parentSetAt
      (if e0.parent = none
        then imgModify im (cl, ci) (fun c => { c with parent := some [] })
        else im) (cl, ci) := by
    split
    · refine ⟨{ e0 with parent := some [] }, ?_, by simp⟩
      rw [getEntity_imgModify]
      simp [h]
    · rename_i hp
      exact ⟨e0, h, hp⟩
  exact (findParentAssign_evolves cl pl _ ci _).2.1 (cl, ci) h1

theorem foldl_childStep_parentSet (cl pl : String) (L : List ℕ) :
    ∀ (im : Image) (j : ℕ), j ∈ L → (∃ e, getEntity im (cl, j) = some e) →
    parentSetAt (L.foldl (findParentChildStep cl pl) im) (cl, j) := by
  induction L with
  | nil =>
    intro im j hj _
    exact absurd hj (List.not_mem_nil j)
  | cons x xs ih =>
    intro im j hj hex
    obtain ⟨e, he⟩ := hex
    rcases List.mem_cons.mp hj with rfl | hj2
    · have h1 := childStep_sets_parent cl pl im j e he
      exact (foldl_childStep_evolves cl pl xs _).2.1 _ h1
    · obtain ⟨e', he', _⟩ := evolves_some (findParentChildStep_evolves cl pl im x) he
      exact ih _ j hj2 ⟨e', he'⟩

theorem mapBucket_childrenSet (img : Image) (pl : String) (k : ℕ) (e : Entity)
    (h : getEntity img (pl, k) = some e) :
    childrenSetAt (mapBucket img pl
      (fun p => if p.children = none then { p with children := some [] } else p)) (pl, k) := by
  have hge : getEntity (mapBucket img pl
      (fun p => if p.children = none then { p with children := some [] } else p)) (pl, k) =
      some (if e.children = none then { e with children := some [] } else e) := by
    rw [getEntity_mapBucket]
    simp [h]
  refine ⟨_, hge, ?_⟩
  split
  · simp
  · rename_i hne
    exact hne

/-- C10: `find_parent` distinguishes "not evaluated" from "evaluated with
no result".  An image lacking child-label or parent-label entities is left
completely untouched; otherwise every parent-label entity (duplicates
included) gets a `children` dict and every child-label entity (duplicates
included) gets a `parent` dict; and in all cases the pass never changes any
entity's geometry, overlap facts, or duplicate flag. -/
theorem find_parent_frame (cl pl : String) (img : Image) :
    ((alistGetD img cl [] = [] ∨ alistGetD img pl [] = []) → findParentImage cl pl img = img) ∧
    (∀ a, (getEntity (findParentImage cl pl img) a).map relErase =
      (getEntity img a).map relErase) ∧
    (alistGetD img cl [] ≠ [] → alistGetD img pl [] ≠ [] →
      (∀ k e, getEntity img (pl, k) = some e →
        childrenSetAt (findParentImage cl pl img) (pl, k)) ∧
      (∀ j e, getEntity img (cl, j) = some e →
        parentSetAt (findParentImage cl pl img) (cl, j))) := by
  refine ⟨findParentImage_skip cl pl img, (findParentImage_evolves cl pl img).1, ?_⟩
  intro hc hpB
  have himg : findParentImage cl pl img =
      (List.range (alistGetD img cl []).length).foldl (findParentChildStep cl pl)
        (mapBucket img pl
          (fun p => if p.children = none then { p with children := some [] } else p)) := by
    simp [findParentImage, hc, hpB]
  constructor
  · intro k e he
    rw [himg]
    exact (foldl_childStep_evolves cl pl _ _).2.2.1 _ (mapBucket_childrenSet img pl k e he)
  · intro j e he
    rw [himg]
    have hj : j ∈ List.range (alistGetD img cl []).length := by
      rw [List.mem_range]
      have hsome : (alistGetD img cl []).get? j = some e := he
      exact (List.get?_eq_some.mp hsome).1
    obtain ⟨e', he', _⟩ := evolves_some (initChildrenBucket_evolves img pl) he
    exact foldl_childStep_parentSet cl pl _ _ j hj ⟨e', he'⟩

theorem find_parent_frame_witness :
    (findParentImage "X" "B" wImg = wImg) ∧
    childrenSetAt (findParentImage "A" "B" wImg) ("B", 0) ∧
    parentSetAt (findParentImage "A" "B" wImg) ("A", 0) :=
  ⟨(find_parent_frame "X" "B" wImg).1 (Or.inl (by decide)),
   ((find_parent_frame "A" "B" wImg).2.2 (by decide) (by decide)).1 0 wEnt3 (by decide),
   ((find_parent_frame "A" "B" wImg).2.2 (by decide) (by decide)).2 0 wEnt1 (by decide)⟩

/-! ## Frame lemmas for the overlap pass -/

theorem getEntity_proj_imgModify {β : Type} (g : Entity → β) (im : Image) (r : Addr)
    (f : Entity → Entity) (a : Addr) (hf : ∀ e, g (f e) = g e) :
    (getEntity (imgModify im r f) a).map g = (getEntity im a).map g := by
  rw [getEntity_imgModify]
  split
  · cases getEntity im a <;> simp [hf]
  · rfl

theorem getEntity_proj_compareStep {β : Type} (g : Entity → β)
    (hg : ∀ e o, g { e with overlap := o } = g e)
    (im : Image) (a1 a2 a : Addr) :
    (getEntity (compareStep im a1 a2) a).map g = (getEntity im a).map g := by
  unfold compareStep
  cases h1 : getEntity im a1 with
  | none => rfl
  | some e1 =>
    cases h2 : getEntity im a2 with
    | none => rfl
    | some e2 =>
      simp only []
      split
      · rw [getEntity_proj_imgModify g _ _ _ _ (fun e => hg e _),
          getEntity_proj_imgModify g _ _ _ _ (fun e => hg e _)]
      · rfl

theorem getEntity_proj_foldPairs {β : Type} (g : Entity → β)
    (hg : ∀ e o, g { e with overlap := o } = g e)
    (addrs : List Addr) (L : List (ℕ × ℕ)) :
    ∀ (im : Image) (a : Addr),
    (getEntity (L.foldl (overlapPairStep addrs) im) a).map g = (getEntity im a).map g := by
  induction L with
  | nil => intro im a; rfl
  | cons x xs ih =>
    intro im a
    rw [List.foldl_cons, ih]
    unfold overlapPairStep
    cases hx1 : addrs.get? x.1 with
    | none => rfl
    | some a1 =>
      cases hx2 : addrs.get? x.2 with
      | none => rfl
      | some a2 => exact getEntity_proj_compareStep g hg im a1 a2 a

theorem getEntity_clearOverlaps (img : Image) (a : Addr) :
    getEntity (clearOverlaps img) a =
      (getEntity img a).map (fun e => { e with overlap := some [] }) := by
  unfold clearOverlaps
  exact getEntity_mapImage _ img a

theorem getEntity_proj_findOverlappingImage {β : Type} (g : Entity → β)
    (hg : ∀ e o', g { e with overlap := o' } = g e) (img : Image) (a : Addr) :
    (getEntity (findOverlappingImage img) a).map g = (getEntity img a).map g := by
  unfold findOverlappingImage
  rw [getEntity_proj_foldPairs g hg, getEntity_clearOverlaps]
  cases getEntity img a <;> simp [hg]

theorem getEntityAll_proj_findOverlappingObjects {β : Type} (g : Entity → β)
    (hg : ∀ e o', g { e with overlap := o' } = g e) (all : AllObjects)
    (imgId : String) (a : Addr) :
    (getEntityAll (findOverlappingObjects all) imgId a).map g =
      (getEntityAll all imgId a).map g := by
  unfold getEntityAll
  have himg : alistGetD (findOverlappingObjects all) imgId [] =
      findOverlappingImage (alistGetD all imgId []) := by
    have := alistGetD_mapSnd (fun img : Image => findOverlappingImage img) all imgId []
    simpa [findOverlappingObjects] using this
  rw [himg]
  exact getEntity_proj_findOverlappingImage g hg _ a

/-! ## The duplicate-cleanliness invariant through the parent assigner -/

theorem surviveForParent_subset {l : List Overlap} {x : Overlap}
    (hx : x ∈ surviveForParent l) : x ∈ l := by
  unfold surviveForParent at hx
  split at hx
  · exact hx
  · split at hx
    · exact absurd hx (List.not_mem_nil x)
    · rename_i f rest heq
      have hsorted : x ∈ sortForParent l := by
        rw [heq]
        split at hx
        · exact List.mem_of_mem_filter hx
        · exact hx
      exact (List.perm_insertionSort parentGe l).mem_iff.mp hsorted

theorem candidateFacts_not_dup {img : Image} {pl : String} {child : Entity} {x : Overlap}
    (hx : x ∈ candidateFacts img pl child) :
    x.center_of_self = true ∧ dupTruthy img x.objAddr = false := by
  unfold candidateFacts at hx
  have hp := List.of_mem_filter hx
  simp only [Bool.and_eq_true, Bool.not_eq_true'] at hp
  exact hp

theorem dupClean_imgModify_keep (im : Image) (r : Addr) (f : Entity → Entity)
    (hdup : ∀ e, (f e).duplicate = e.duplicate)
    (hsafe : ∀ e, e.parent.getD [] = [] → (∀ pr ∈ e.children.getD [], pr.2 = []) →
      (f e).parent.getD [] = [] ∧ ∀ pr ∈ (f e).children.getD [], pr.2 = [])
    (h : DupClean im) : DupClean (imgModify im r f) := by
  intro a e' he' hd
  rw [getEntity_imgModify] at he'
  split at he'
  · cases hge : getEntity im a with
    | none => rw [hge] at he'; exact absurd he' (by simp)
    | some e =>
      rw [hge] at he'
      simp only [Option.map_some'] at he'
      have he : e' = f e := (Option.some.inj he').symm
      have hde : e.duplicate = some true := by
        rw [← hdup e, ← he]
        exact hd
      obtain ⟨hp, hc⟩ := h a e hge hde
      rw [he]
      exact hsafe e hp hc
  · exact h a e' he' hd

theorem dupClean_imgModify_nondup (im : Image) (r : Addr) (f : Entity → Entity)
    (hdup : ∀ e, (f e).duplicate = e.duplicate)
    (hnd : ∀ e, getEntity im r = some e → e.duplicate ≠ some true)
    (h : DupClean im) : DupClean (imgModify im r f) := by
  intro a e' he' hd
  rw [getEntity_imgModify] at he'
  split at he'
  · rename_i har
    cases hge : getEntity im a with
    | none => rw [hge] at he'; exact absurd he' (by simp)
    | some e =>
      rw [hge] at he'
      simp only [Option.map_some'] at he'
      have he : e' = f e := (Option.some.inj he').symm
      have hde : e.duplicate = some true := by
        rw [← hdup e, ← he]
        exact hd
      rw [har] at hge
      exact absurd hde (hnd e hge)
  · exact h a e' he' hd

theorem dupClean_findParentAssign (cl pl : String) (im1 : Image) (ci : ℕ) (child : Entity)
    (hchild : ∀ e, getEntity im1 (cl, ci) = some e → e.duplicate = child.duplicate)
    (h : DupClean im1) : DupClean (findParentAssign cl pl im1 ci child) := by
  simp only [findParentAssign]
  split
  · exact h
  · rename_i hdupF
    split
    · exact h
    · split
      · rename_i f heq
        cases hpar : getEntity im1 f.objAddr with
        | none => exact h
        | some par =>
          simp only []
          have hmem : f ∈ candidateFacts im1 pl child := by
            apply surviveForParent_subset
            rw [heq]
            exact List.mem_singleton.mpr rfl
          have hdt : dupTruthy im1 f.objAddr = false := (candidateFacts_not_dup hmem).2
          have him2 : DupClean (imgModify im1 (cl, ci)
              (fun c =>
                { c with parent := some (alistSet (c.parent.getD []) pl par.index) })) := by
            refine dupClean_imgModify_nondup _ _ _ (fun e => rfl) ?_ h
            intro e hge hde
            have := hchild e hge
            rw [this] at hde
            rw [hde] at hdupF
            simp at hdupF
          refine dupClean_imgModify_nondup _ _ _ (fun e => rfl) ?_ him2
          intro e hge hde
          have hfr : getEntity (imgModify im1 (cl, ci)
              (fun c =>
                { c with parent := some (alistSet (c.parent.getD []) pl par.index) }))
              f.objAddr = some e := hge
          rw [getEntity_imgModify] at hfr
          have hdt2 : e.duplicate.getD false = false := by
            unfold dupTruthy at hdt
            split at hdt
            · rename_i e0 hge0
              split at hfr
              · rw [hge0] at hfr
                simp only [Option.map_some'] at hfr
                have : e =
                    { e0 with
                      parent := some (alistSet (e0.parent.getD []) pl par.index) } :=
                  (Option.some.inj hfr).symm
                rw [this]
                exact hdt
              · rw [hge0] at hfr
                have : e0 = e := Option.some.inj hfr
                rw [← this]
                exact hdt
            · rename_i hge0
              split at hfr
              · rw [hge0] at hfr
                exact absurd hfr (by simp)
              · rw [hge0] at hfr
                exact absurd hfr (by simp)
          rw [hde] at hdt2
          simp at hdt2
      · exact h

theorem dupClean_childStep (cl pl : String) (im : Image) (ci : ℕ)
    (h : DupClean im) : DupClean (findParentChildStep cl pl im ci) := by
  unfold findParentChildStep
  cases hcg : getEntity im (cl, ci) with
  | none => exact h
  | some child0 =>
    simp only []
    by_cases hp : child0.parent = none
    · rw [if_pos hp, if_pos hp]
      apply dupClean_findParentAssign
      · intro e hge
        rw [getEntity_imgModify] at hge
        rw [if_pos rfl] at hge
        rw [hcg] at hge
        simp only [Option.map_some'] at hge
        rw [← Option.some.inj hge]
      · exact dupClean_imgModify_keep _ _ _ (fun e => rfl)
          (fun e h1 h2 => ⟨by simp, h2⟩) h
    · rw [if_neg hp, if_neg hp]
      apply dupClean_findParentAssign _ _ _ _ _ _ h
      intro e hge
      rw [hcg] at hge
      rw [← Option.some.inj hge]

theorem dupClean_foldSteps (cl pl : String) (L : List ℕ) :
    ∀ im : Image, DupClean im → DupClean (L.foldl (findParentChildStep cl pl) im) := by
  induction L with
  | nil => intro im h; exact h
  | cons x xs ih =>
    intro im h
    exact ih _ (dupClean_childStep cl pl im x h)

theorem dupClean_mapBucket_init (im : Image) (pl : String)
    (h : DupClean im) :
    DupClean (mapBucket im pl
      (fun p => if p.children = none then { p with children := some [] } else p)) := by
  intro a e' he' hd
  rw [getEntity_mapBucket] at he'
  split at he'
  · cases hge : getEntity im a with
    | none => rw [hge] at he'; exact absurd he' (by simp)
    | some e =>
      rw [hge] at he'
      simp only [Option.map_some'] at he'
      have he : e' = if e.children = none then { e with children := some [] } else e :=
        (Option.some.inj he').symm
      have hde : e.duplicate = some true := by
        rw [he] at hd
        split at hd
        · exact hd
        · exact hd
      obtain ⟨hp, hc⟩ := h a e hge hde
      rw [he]
      split
      · exact ⟨hp, by simp⟩
      · exact ⟨hp, hc⟩
  · exact h a e' he' hd

theorem dupClean_findParentImage (cl pl : String) (img : Image)
    (h : DupClean img) : DupClean (findParentImage cl pl img) := by
  simp only [findParentImage]
  split
  · exact h
  · split
    · exact h
    · exact dupClean_foldSteps cl pl _ _ (dupClean_mapBucket_init img pl h)

theorem dupCleanAll_findParent (all : AllObjects) (cl pl : String)
    (h : DupCleanAll all) : DupCleanAll (findParent all cl pl) := by
  intro imgId a e hge hd
  have himg : alistGetD (findParent all cl pl) imgId [] =
      findParentImage cl pl (alistGetD all imgId []) := by
    have hmp := alistGetD_mapSnd (fun img : Image => findParentImage cl pl img) all imgId []
    have hnil : findParentImage cl pl [] = [] :=
      findParentImage_skip cl pl [] (Or.inl rfl)
    rw [hnil] at hmp
    simpa [findParent] using hmp
  unfold getEntityAll at hge
  rw [himg] at hge
  exact dupClean_findParentImage cl pl _ (fun a' e' hge' hd' => h imgId a' e' hge' hd') a e hge hd

theorem dupCleanAll_foldParents (cpl : List (String × String)) :
    ∀ all : AllObjects, DupCleanAll all →
    DupCleanAll (cpl.foldl (fun a p => findParent a p.1 p.2) all) := by
  induction cpl with
  | nil => intro all h; exact h
  | cons x xs ih =>
    intro all h
    exact ih _ (dupCleanAll_findParent all x.1 x.2 h)

theorem alistGetD_alistSet {α : Type} (d : List (String × α)) (k key : String)
    (v dflt : α) :
    alistGetD (alistSet d k v) key dflt = if key = k then v else alistGetD d key dflt := by
  unfold alistGetD
  rw [alistGet_alistSet]
  split <;> rfl

theorem freshAll_nil : FreshAll [] := by
  intro imgId a e hge
  simp [getEntityAll, getEntity, alistGetD, alistGet] at hge

theorem freshAll_init (all : AllObjects) (lbl imgId : String) (xmin xmax ymin ymax : ℚ)
    (h : FreshAll all) :
    FreshAll (hierObjectInit all lbl imgId xmin xmax ymin ymax).all := by
  intro imgId2 a e hge
  simp only [hierObjectInit] at hge
  split at hge
  · exact h imgId2 a e hge
  · split at hge
    · exact h imgId2 a e hge
    · split at hge
      · exact h imgId2 a e hge
      · unfold getEntityAll at hge
        rw [alistGetD_alistSet] at hge
        split at hge
        · rename_i himg
          unfold getEntity at hge
          rw [alistGetD_alistSet] at hge
          split at hge
          · rename_i hlbl
            by_cases hlt : a.2 < (alistGetD (alistGetD all imgId []) lbl []).length
            · rw [List.get?_append hlt] at hge
              refine h imgId a e ?_
              unfold getEntityAll getEntity
              rw [hlbl]
              exact hge
            · rw [List.get?_append_right (le_of_not_lt hlt)] at hge
              cases hn : a.2 - (alistGetD (alistGetD all imgId []) lbl []).length with
              | zero =>
                rw [hn] at hge
                simp only [List.get?] at hge
                have he := Option.some.inj hge
                constructor
                · rw [← he]
                · rw [← he]
              | succ n =>
                rw [hn] at hge
                simp [List.get?] at hge
          · refine h imgId a e ?_
            unfold getEntityAll getEntity
            exact hge
        · exact h imgId2 a e hge

theorem freshAll_dupParentAll : FreshAll dupParentAll :=
  freshAll_init _ _ _ _ _ _ _
    (freshAll_init _ _ _ _ _ _ _
      (freshAll_init _ _ _ _ _ _ _ freshAll_nil))

/-- C4: after `get_hierarchy` on a fresh collection, a duplicate-flagged
entity has an empty parent dict and only empty children lists (so no
resolved parent for any processed label pair, and no recorded children);
and concretely, a child whose sole center-containing candidate parent is
the duplicate box receives no parent assignment. -/
theorem get_hierarchy_duplicates_clean (all : AllObjects) (cpl : List (String × String))
    (hfresh : FreshAll all) :
    DupCleanAll (getHierarchy all cpl) ∧
    ((getEntityAll dupParentFinal "i" ("G", 0)).map (fun e => e.duplicate) =
        some (some true) ∧
     (getEntityAll dupParentFinal "i" ("O", 0)).map (fun e => (e.duplicate, e.parent)) =
        some (some false, some [])) := by
  constructor
  · apply dupCleanAll_foldParents
    intro imgId a e hge hd
    have hov := getEntityAll_proj_findOverlappingObjects pcProj (fun e o' => rfl) all imgId a
    have hdup : getEntityAll (findDuplicates (findOverlappingObjects all)) imgId a = some e :=
      hge
    rw [getEntityAll_findDuplicates_eq] at hdup
    -- trace the entity back through find_duplicates and the overlap pass
    cases hov0 : getEntityAll (findOverlappingObjects all) imgId a with
    | none =>
      rw [hov0] at hdup
      exact absurd hdup (by simp)
    | some e0 =>
      rw [hov0] at hdup
      simp only [Option.map_some'] at hdup
      have he : e = { e0 with duplicate := some (redundantAndNotLast e0) } :=
        (Option.some.inj hdup).symm
      rw [hov0] at hov
      cases hfr : getEntityAll all imgId a with
      | none => rw [hfr] at hov; exact absurd hov (by simp)
      | some ef =>
        rw [hfr] at hov
        simp only [Option.map_some'] at hov
        have hpc : pcProj e0 = pcProj ef := Option.some.inj hov
        obtain ⟨hfp, hfc⟩ := hfresh imgId a ef hfr
        have hp0 : e0.parent = none := by
          have := congrArg Prod.fst hpc
          simpa [pcProj, hfp] using this
        have hc0 : e0.children = none := by
          have := congrArg Prod.snd hpc
          simpa [pcProj, hfc] using this
        rw [he]
        refine ⟨by simp [hp0], by simp [hc0]⟩
  · exact ⟨by decide, by decide⟩

theorem get_hierarchy_duplicates_clean_witness :
    DupCleanAll (getHierarchy dupParentAll [("O", "G")]) :=
  (get_hierarchy_duplicates_clean dupParentAll [("O", "G")] freshAll_dupParentAll).1

/-! ## The ranking order of `sort_for_parent` -/

theorem pkeyLe_total (x y : ℕ × ℕ × ℚ) : pkeyLe x y ∨ pkeyLe y x := by
  unfold pkeyLe
  rcases lt_trichotomy x.1 y.1 with h | h | h
  · exact Or.inl (Or.inl h)
  · rcases lt_trichotomy x.2.1 y.2.1 with h2 | h2 | h2
    · exact Or.inl (Or.inr ⟨h, Or.inl h2⟩)
    · rcases le_total x.2.2 y.2.2 with h3 | h3
      · exact Or.inl (Or.inr ⟨h, Or.inr ⟨h2, h3⟩⟩)
      · exact Or.inr (Or.inr ⟨h.symm, Or.inr ⟨h2.symm, h3⟩⟩)
    · exact Or.inr (Or.inr ⟨h.symm, Or.inl h2⟩)
  · exact Or.inr (Or.inl h)

theorem pkeyLe_trans {x y z : ℕ × ℕ × ℚ} (hxy : pkeyLe x y) (hyz : pkeyLe y z) :
    pkeyLe x z := by
  unfold pkeyLe at *
  rcases hxy with h1 | ⟨e1, h1⟩
  · rcases hyz with h2 | ⟨e2, h2⟩
    · exact Or.inl (h1.trans h2)
    · exact Or.inl (e2 ▸ h1)
  · rcases hyz with h2 | ⟨e2, h2⟩
    · exact Or.inl (e1 ▸ h2)
    · refine Or.inr ⟨e1.trans e2, ?_⟩
      rcases h1 with h1 | ⟨f1, h1⟩
      · rcases h2 with h2 | ⟨f2, h2⟩
        · exact Or.inl (h1.trans h2)
        · exact Or.inl (f2 ▸ h1)
      · rcases h2 with h2 | ⟨f2, h2⟩
        · exact Or.inl (f1 ▸ h2)
        · exact Or.inr ⟨f1.trans f2, h1.trans h2⟩

instance : IsTotal Overlap parentGe :=
  ⟨fun a b => pkeyLe_total (pkey b) (pkey a)⟩

instance : IsTrans Overlap parentGe :=
  ⟨fun _ _ _ hab hbc => pkeyLe_trans hbc hab⟩

theorem sortForParent_sorted (l : List Overlap) :
    List.Sorted parentGe (sortForParent l) :=
  List.sorted_insertionSort parentGe l

theorem sortForParent_perm (l : List Overlap) : (sortForParent l).Perm l :=
  List.perm_insertionSort parentGe l

/-! ## Congruence of the candidate computation under relationship-only
changes of the store -/

theorem relErase_duplicate {e1 e2 : Entity} (h : relErase e1 = relErase e2) :
    e1.duplicate = e2.duplicate :=
  congrArg (fun e => e.duplicate) h

theorem relErase_overlap_eq {e1 e2 : Entity} (h : relErase e1 = relErase e2) :
    e1.overlap = e2.overlap :=
  congrArg (fun e => e.overlap) h

theorem relErase_index {e1 e2 : Entity} (h : relErase e1 = relErase e2) :
    e1.index = e2.index :=
  congrArg (fun e => e.index) h

theorem dupTruthy_congr {im im' : Image}
    (hframe : ∀ a, (getEntity im' a).map relErase = (getEntity im a).map relErase)
    (a : Addr) : dupTruthy im' a = dupTruthy im a := by
  unfold dupTruthy
  have h := hframe a
  cases h1 : getEntity im a with
  | none =>
    rw [h1] at h
    cases h2 : getEntity im' a with
    | none => rfl
    | some e' => rw [h2] at h; exact absurd h (by simp)
  | some e =>
    rw [h1] at h
    cases h2 : getEntity im' a with
    | none => rw [h2] at h; exact absurd h (by simp)
    | some e' =>
      rw [h2] at h
      simp only [Option.map_some'] at h
      simp only []
      rw [relErase_duplicate (Option.some.inj h)]

theorem candidateFacts_congr {im im' : Image}
    (hframe : ∀ a, (getEntity im' a).map relErase = (getEntity im a).map relErase)
    {c c' : Entity} (hc : relErase c' = relErase c) (pl : String) :
    candidateFacts im' pl c' = candidateFacts im pl c := by
  unfold candidateFacts
  rw [relErase_overlap_eq hc]
  apply List.filter_congr
  intro x hx
  rw [dupTruthy_congr hframe]

/-! ## Parent-field isolation: no step other than a child's own touches
that child's parent dict -/

theorem getEntity_imgModify_ne (im : Image) (r : Addr) (f : Entity → Entity) (a : Addr)
    (h : a ≠ r) : getEntity (imgModify im r f) a = getEntity im a := by
  rw [getEntity_imgModify, if_neg h]

theorem parentField_imgModify_addChild (im : Image) (r a : Addr) (key : String) (idx : ℕ) :
    (getEntity (imgModify im r
      (fun p => { p with children := some (alistModifyD (p.children.getD []) key []
        (fun l => l ++ [idx])) })) a).map (fun e => e.parent) =
    (getEntity im a).map (fun e => e.parent) :=
  getEntity_proj_imgModify _ _ _ _ _ (fun e => rfl)

theorem findParentAssign_parentField (cl pl : String) (im1 : Image) (ci : ℕ)
    (child : Entity) (a : Addr) (hne : a ≠ (cl, ci)) :
    (getEntity (findParentAssign cl pl im1 ci child) a).map (fun e => e.parent) =
    (getEntity im1 a).map (fun e => e.parent) := by
  simp only [findParentAssign]
  split
  · rfl
  · split
    · rfl
    · split
      · split
        · rfl
        · rw [parentField_imgModify_addChild, getEntity_imgModify_ne _ _ _ _ hne]
      · rfl

theorem childStep_parentField (cl pl : String) (im : Image) (j : ℕ) (a : Addr)
    (hne : a ≠ (cl, j)) :
    (getEntity (findParentChildStep cl pl im j) a).map (fun e => e.parent) =
    (getEntity im a).map (fun e => e.parent) := by
  unfold findParentChildStep
  cases getEntity im (cl, j) with
  | none => rfl
  | some child0 =>
    simp only []
    rw [findParentAssign_parentField _ _ _ _ _ _ hne]
    split
    · rw [getEntity_imgModify_ne _ _ _ _ hne]
    · rfl

theorem foldl_parentField (cl pl : String) (ci : ℕ) :
    ∀ (L : List ℕ), (∀ j ∈ L, j ≠ ci) →
    ∀ im : Image,
    (getEntity (L.foldl (findParentChildStep cl pl) im) (cl, ci)).map (fun e => e.parent) =
    (getEntity im (cl, ci)).map (fun e => e.parent) := by
  intro L
  induction L with
  | nil => intro _ im; rfl
  | cons x xs ih =>
    intro hL im
    rw [List.foldl_cons, ih (fun j hj => hL j (List.mem_cons_of_mem x hj)) _,
      childStep_parentField]
    intro hh
    exact hL x (List.mem_cons_self x xs) ((congrArg Prod.snd hh).symm)

/-! ## The per-child assignment analysis (C1) -/

theorem relErase_imgModify_parentInit (im : Image) (r a : Addr) :
    (getEntity (imgModify im r (fun c => { c with parent := some [] })) a).map relErase =
    (getEntity im a).map relErase :=
  getEntity_proj_imgModify _ _ _ _ _ (fun e => rfl)

theorem assign_at_target (img : Image) (cl pl : String) (ci : ℕ) (child : Entity)
    (im1 : Image) (childB : Entity)
    (hframe : ∀ a, (getEntity im1 a).map relErase = (getEntity img a).map relErase)
    (hgeB : getEntity im1 (cl, ci) = some childB)
    (hrelB : relErase childB = relErase child)
    (hfreeB : alistGet (childB.parent.getD []) pl = none)
    (hdupc : child.duplicate.getD false = false)
    (hfacts : ∀ f ∈ candidateFacts img pl child,
      (getEntity img f.objAddr).map (fun p => p.index) = some f.index) :
    AssignOutcome img (findParentAssign cl pl im1 ci childB) cl pl ci child := by
  have hdupB : childB.duplicate.getD false = false := by
    rw [relErase_duplicate hrelB]
    exact hdupc
  have hidxB : childB.index = child.index := relErase_index hrelB
  have hcands : candidateFacts im1 pl childB = candidateFacts img pl child :=
    candidateFacts_congr hframe hrelB pl
  have hguard : ¬ (childB.duplicate.getD false = true) := by simp [hdupB]
  simp only [findParentAssign]
  rw [if_neg hguard, hcands]
  by_cases hnil : candidateFacts img pl child = []
  · rw [if_pos hnil]
    refine ⟨childB, hgeB, hrelB, ?_⟩
    have hs : surviveForParent (candidateFacts img pl child) = [] := by
      rw [hnil]
      rfl
    rw [hs]
    exact hfreeB
  · rw [if_neg hnil]
    rcases hs : surviveForParent (candidateFacts img pl child) with _ | ⟨f, rest⟩
    · refine ⟨childB, hgeB, hrelB, ?_⟩
      rw [hs]
      exact hfreeB
    · cases rest with
      | cons g rest2 =>
        refine ⟨childB, hgeB, hrelB, ?_⟩
        rw [hs]
        exact hfreeB
      | nil =>
        have hfmem : f ∈ candidateFacts img pl child := by
          apply surviveForParent_subset
          rw [hs]
          exact List.mem_singleton.mpr rfl
        have hidxf := hfacts f hfmem
        cases hpo : getEntity img f.objAddr with
        | none =>
          rw [hpo] at hidxf
          exact absurd hidxf (by simp)
        | some p =>
          rw [hpo] at hidxf
          simp only [Option.map_some'] at hidxf
          have hpidx : p.index = f.index := Option.some.inj hidxf
          have hf1 := hframe f.objAddr
          rw [hpo] at hf1
          cases hp1 : getEntity im1 f.objAddr with
          | none =>
            rw [hp1] at hf1
            exact absurd hf1 (by simp)
          | some par =>
            rw [hp1] at hf1
            simp only [Option.map_some'] at hf1
            have hparrel : relErase par = relErase p := Option.some.inj hf1
            have hparidx : par.index = f.index := by
              rw [relErase_index hparrel]
              exact hpidx
            simp only []
            rw [hp1]
            simp only []
            -- the two mutations of the assignment
            have hgeu2 : getEntity (imgModify im1 (cl, ci)
                (fun c =>
                  { c with parent := some (alistSet (c.parent.getD []) pl par.index) }))
                (cl, ci) =
                some { childB with
                  parent := some (alistSet (childB.parent.getD []) pl par.index) } := by
              rw [getEntity_imgModify, if_pos rfl, hgeB]
              rfl
            have hgeF : ∃ child',
                getEntity (imgModify (imgModify im1 (cl, ci)
                  (fun c =>
                    { c with parent := some (alistSet (c.parent.getD []) pl par.index) }))
                  f.objAddr
                  (fun q => { q with children := some (alistModifyD (q.children.getD []) cl []
                    (fun l => l ++ [childB.index])) })) (cl, ci) = some child' ∧
                child'.parent = some (alistSet (childB.parent.getD []) pl par.index) ∧
                relErase child' = relErase childB := by
              rw [getEntity_imgModify]
              split
              · rw [hgeu2]
                exact ⟨_, rfl, rfl, hrelB ▸ rfl⟩
              · exact ⟨_, hgeu2, rfl, rfl⟩
            obtain ⟨child', hc1, hc2, hc3⟩ := hgeF
            have hX : ∃ X, getEntity (imgModify im1 (cl, ci)
                (fun c =>
                  { c with parent := some (alistSet (c.parent.getD []) pl par.index) }))
                f.objAddr = some X := by
              rw [getEntity_imgModify]
              split
              · rw [hp1]
                exact ⟨_, rfl⟩
              · exact ⟨par, hp1⟩
            obtain ⟨X, hXe⟩ := hX
            refine ⟨child', hc1, hc3.trans hrelB, ?_⟩
            rw [hs]
            constructor
            · rw [hc2]
              simp only [Option.getD_some]
              rw [alistGet_alistSet, if_pos rfl, hparidx]
            · refine ⟨{ X with children := some (alistModifyD (X.children.getD []) cl []
                  (fun l => l ++ [childB.index])) }, ?_, ?_⟩
              · rw [getEntity_imgModify, if_pos rfl, hXe]
                rfl
              · simp only [Option.getD_some]
                rw [alistGetD_modifyD, if_pos rfl]
                rw [hidxB]
                exact List.mem_append_right _ (List.mem_singleton.mpr rfl)

theorem childStep_at_target (img : Image) (cl pl : String) (ci : ℕ) (child : Entity)
    (im : Image) (childA : Entity)
    (hframe : ∀ a, (getEntity im a).map relErase = (getEntity img a).map relErase)
    (hgeA : getEntity im (cl, ci) = some childA)
    (hrelA : relErase childA = relErase child)
    (hpfA : childA.parent = child.parent)
    (hdupc : child.duplicate.getD false = false)
    (hfree : alistGet (child.parent.getD []) pl = none)
    (hfacts : ∀ f ∈ candidateFacts img pl child,
      (getEntity img f.objAddr).map (fun p => p.index) = some f.index) :
    AssignOutcome img (findParentChildStep cl pl im ci) cl pl ci child := by
  unfold findParentChildStep
  rw [hgeA]
  simp only []
  by_cases hpA : childA.parent = none
  · rw [if_pos hpA, if_pos hpA]
    refine assign_at_target img cl pl ci child _ _ ?_ ?_ ?_ ?_ hdupc hfacts
    · intro a
      rw [relErase_imgModify_parentInit]
      exact hframe a
    · rw [getEntity_imgModify, if_pos rfl, hgeA]
      rfl
    · exact hrelA
    · simp [alistGet]
  · rw [if_neg hpA, if_neg hpA]
    refine assign_at_target img cl pl ci child _ _ hframe hgeA hrelA ?_ hdupc hfacts
    rw [hpfA]
    exact hfree

theorem outcome_preserved (img : Image) (cl pl : String) (ci : ℕ) (child : Entity)
    {S S' : Image}
    (hout : AssignOutcome img S cl pl ci child)
    (hpar : (getEntity S' (cl, ci)).map (fun e => e.parent) =
      (getEntity S (cl, ci)).map (fun e => e.parent))
    (hrel : ∀ a, (getEntity S' a).map relErase = (getEntity S a).map relErase)
    (hmem : ∀ a key x, childMemAt S a key x → childMemAt S' a key x) :
    AssignOutcome img S' cl pl ci child := by
  obtain ⟨c', hg, hr, hrest⟩ := hout
  have h1 := hrel (cl, ci)
  rw [hg] at h1
  have h2 := hpar
  rw [hg] at h2
  cases hg2 : getEntity S' (cl, ci) with
  | none =>
    rw [hg2] at h1
    exact absurd h1 (by simp)
  | some c2 =>
    rw [hg2] at h1 h2
    simp only [Option.map_some'] at h1 h2
    have hrc : relErase c2 = relErase c' := Option.some.inj h1
    have hpc : c2.parent = c'.parent := Option.some.inj h2
    refine ⟨c2, hg2, hrc.trans hr, ?_⟩
    rcases hs : surviveForParent (candidateFacts img pl child) with _ | ⟨f, rest⟩
    · rw [hs] at hrest
      rw [hpc]
      exact hrest
    · cases rest with
      | nil =>
        rw [hs] at hrest
        simp only [] at hrest ⊢
        exact ⟨hpc ▸ hrest.1, hmem _ _ _ hrest.2⟩
      | cons g rest2 =>
        rw [hs] at hrest
        rw [hpc]
        exact hrest

theorem foldl_outcome (img : Image) (cl pl : String) (ci : ℕ) (child : Entity)
    (hge : getEntity img (cl, ci) = some child)
    (hdupc : child.duplicate.getD false = false)
    (hfree : alistGet (child.parent.getD []) pl = none)
    (hfacts : ∀ f ∈ candidateFacts img pl child,
      (getEntity img f.objAddr).map (fun p => p.index) = some f.index) :
    ∀ (L : List ℕ), L.Nodup → ci ∈ L →
    ∀ im : Image,
    (∀ a, (getEntity im a).map relErase = (getEntity img a).map relErase) →
    (getEntity im (cl, ci)).map (fun e => e.parent) = some child.parent →
    AssignOutcome img (L.foldl (findParentChildStep cl pl) im) cl pl ci child := by
  intro L
  induction L with
  | nil =>
    intro _ h
    exact absurd h (List.not_mem_nil ci)
  | cons x xs ih =>
    intro hnd hmem im hframe hpf
    rw [List.foldl_cons]
    rcases List.mem_cons.mp hmem with rfl | hmem2
    · -- this is the step that processes our child
      have hA : ∃ childA, getEntity im (cl, ci) = some childA ∧
          relErase childA = relErase child ∧ childA.parent = child.parent := by
        cases hg : getEntity im (cl, ci) with
        | none =>
          rw [hg] at hpf
          exact absurd hpf (by simp)
        | some childA =>
          have hf := hframe (cl, ci)
          rw [hg, hge] at hf
          rw [hg] at hpf
          simp only [Option.map_some'] at hf hpf
          exact ⟨childA, rfl, Option.some.inj hf, Option.some.inj hpf⟩
      obtain ⟨childA, hgA, hrA, hpA⟩ := hA
      have hstep := childStep_at_target img cl pl ci child im childA
        hframe hgA hrA hpA hdupc hfree hfacts
      have hxs : ∀ j ∈ xs, j ≠ ci := by
        intro j hj hji
        rw [hji] at hj
        exact (List.nodup_cons.mp hnd).1 hj
      have hev := foldl_childStep_evolves cl pl xs (findParentChildStep cl pl im ci)
      exact outcome_preserved img cl pl ci child hstep
        (foldl_parentField cl pl ci xs hxs _) hev.1 hev.2.2.2
    · have hev := findParentChildStep_evolves cl pl im x
      have hxne : (cl, ci) ≠ (cl, x) := by
        intro hh
        have hcix : ci = x := congrArg Prod.snd hh
        rw [← hcix] at hnd
        exact (List.nodup_cons.mp hnd).1 hmem2
      refine ih (List.nodup_cons.mp hnd).2 hmem2 _
        (fun a => (hev.1 a).trans (hframe a)) ?_
      rw [childStep_parentField cl pl im x (cl, ci) hxne]
      exact hpf

theorem parentField_mapBucket_init (im : Image) (key : String) (a : Addr) :
    (getEntity (mapBucket im key
      (fun p => if p.children = none then { p with children := some [] } else p)) a).map
        (fun e => e.parent) =
    (getEntity im a).map (fun e => e.parent) := by
  rw [getEntity_mapBucket]
  split
  · cases getEntity im a with
    | none => rfl
    | some e =>
      simp only [Option.map_some']
      congr 1
      split <;> rfl
  · rfl

/-- C1: for a non-duplicate child with no prior entry for the parent label,
the candidate set is exactly the center-inside, non-duplicate overlap facts
under the parent label; `sort_for_parent` ranks candidates descending by
(inside, center, IoM) while keeping exactly the candidates; with more than
one candidate, full-containment survivors displace center-only ones when
the top candidate is fully contained; and after `find_parent` the child has
`parent[pl]` set to the survivor's index with its own index recorded in
that parent's `children[cl]` iff exactly one candidate survives, and no
entry otherwise (ambiguity is not an error). -/
theorem find_parent_assignment (cl pl : String) (img : Image) (ci : ℕ) (child : Entity)
    (hge : getEntity img (cl, ci) = some child)
    (hpB : alistGetD img pl [] ≠ [])
    (hdupc : child.duplicate.getD false = false)
    (hfree : alistGet (child.parent.getD []) pl = none)
    (hfacts : ∀ f ∈ candidateFacts img pl child,
      (getEntity img f.objAddr).map (fun p => p.index) = some f.index) :
    (candidateFacts img pl child =
      (alistGetD (child.overlap.getD []) pl []).filter
        (fun over => over.center_of_self && !(dupTruthy img over.objAddr))) ∧
    List.Sorted parentGe (sortForParent (candidateFacts img pl child)) ∧
    (sortForParent (candidateFacts img pl child)).Perm (candidateFacts img pl child) ∧
    (1 < (candidateFacts img pl child).length →
      surviveForParent (candidateFacts img pl child) =
        match sortForParent (candidateFacts img pl child) with
        | [] => []
        | f :: rest =>
          if f.self_inside_other then (f :: rest).filter (fun i => i.self_inside_other)
          else f :: rest) ∧
    AssignOutcome img (findParentImage cl pl img) cl pl ci child := by
  refine ⟨rfl, sortForParent_sorted _, sortForParent_perm _, ?_, ?_⟩
  · intro hlen
    unfold surviveForParent
    rw [if_neg (not_le.mpr hlen)]
  · have hcl : alistGetD img cl [] ≠ [] := by
      intro hnil
      have : getEntity img (cl, ci) = none := by
        unfold getEntity
        rw [hnil]
        rfl
      rw [hge] at this
      exact absurd this (by simp)
    have himg : findParentImage cl pl img =
        (List.range (alistGetD img cl []).length).foldl (findParentChildStep cl pl)
          (mapBucket img pl
            (fun p => if p.children = none then { p with children := some [] } else p)) := by
      simp [findParentImage, hcl, hpB]
    rw [himg]
    have hci : ci ∈ List.range (alistGetD img cl []).length := by
      rw [List.mem_range]
      have hsome : (alistGetD img cl []).get? ci = some child := hge
      exact (List.get?_eq_some.mp hsome).1
    refine foldl_outcome img cl pl ci child hge hdupc hfree hfacts _
      (List.nodup_range _) hci _ (initChildrenBucket_evolves img pl).1 ?_
    rw [parentField_mapBucket_init, hge]
    rfl

theorem find_parent_assignment_witness :
    AssignOutcome demoDupImg (findParentImage "Object" "Group" demoDupImg)
      "Object" "Group" 0 demoChild :=
  (find_parent_assignment "Object" "Group" demoDupImg 0 demoChild
    (by decide) (by decide) (by decide) (by decide) (by decide)).2.2.2.2

/-! ## Combinatorics of the overlap pass (C3) -/

theorem alistGetD_appendFact (d : List (String × List Overlap)) (k c : String) (f : Overlap) :
    alistGetD (appendFact d k f) c [] =
      if c = k then alistGetD d k [] ++ [f] else alistGetD d c [] := by
  unfold appendFact
  rw [alistGetD_modifyD]

theorem factsAt_clearOverlaps (img : Image) (a b : Addr) (c : String) :
    factsAt (clearOverlaps img) a b c = [] := by
  unfold factsAt
  rw [getEntity_clearOverlaps]
  cases getEntity img a with
  | none => rfl
  | some e => simp [alistGetD, alistGet]

theorem mem_flatAddrs_fst {img : Image} {a : Addr} (h : a ∈ flatAddrs img) :
    a.1 ∈ img.map Prod.fst := by
  unfold flatAddrs at h
  rw [List.mem_flatMap] at h
  obtain ⟨p, hp, hmem⟩ := h
  rw [List.mem_map] at hmem
  obtain ⟨i, _, rfl⟩ := hmem
  exact List.mem_map.mpr ⟨p, hp, rfl⟩

theorem flatAddrs_entity {img : Image} (hkeys : keysNodup img) {a : Addr}
    (h : a ∈ flatAddrs img) : ∃ e, getEntity img a = some e := by
  induction img with
  | nil => simp [flatAddrs] at h
  | cons hd tl ih =>
    obtain ⟨l, es⟩ := hd
    unfold flatAddrs at h
    rw [List.flatMap_cons] at h
    rcases List.mem_append.mp h with h1 | h2
    · rw [List.mem_map] at h1
      obtain ⟨i, hi, rfl⟩ := h1
      rw [List.mem_range] at hi
      refine ⟨es.get ⟨i, hi⟩, ?_⟩
      rw [getEntity_cons, if_pos rfl]
      exact List.get?_eq_get hi
    · have hfst := mem_flatAddrs_fst h2
      have hln : l ∉ tl.map Prod.fst := (List.nodup_cons.mp hkeys).1
      have hne : l ≠ a.1 := fun hh => hln (hh ▸ hfst)
      obtain ⟨e, he⟩ := ih (List.nodup_cons.mp hkeys).2 h2
      exact ⟨e, by rw [getEntity_cons, if_neg hne]; exact he⟩

theorem flatAddrs_nodup {img : Image} (hkeys : keysNodup img) : (flatAddrs img).Nodup := by
  unfold flatAddrs
  rw [List.nodup_flatMap]
  constructor
  · intro p _
    exact (List.nodup_range _).map (fun i j hij => congrArg Prod.snd hij)
  · have hpw : img.Pairwise (fun p q => p.1 ≠ q.1) := by
      have := hkeys
      unfold keysNodup at this
      rw [List.Nodup, List.pairwise_map] at this
      exact this
    refine hpw.imp ?_
    intro p q hne z hz1 hz2
    rw [List.mem_map] at hz1 hz2
    obtain ⟨i, _, rfl⟩ := hz1
    obtain ⟨j, _, hb⟩ := hz2
    exact hne (congrArg (fun z : Addr => z.1) hb.symm)

theorem mem_pairList {n i j : ℕ} : (i, j) ∈ pairList n ↔ i < j ∧ j < n := by
  unfold pairList
  rw [List.mem_flatMap]
  constructor
  · rintro ⟨x, hx, hmem⟩
    rw [List.mem_map] at hmem
    obtain ⟨y, hy, heq⟩ := hmem
    injection heq with hx2 hy2
    subst hx2
    subst hy2
    rw [List.mem_filter, List.mem_range] at hy
    exact ⟨by simpa using hy.2, hy.1⟩
  · rintro ⟨hij, hjn⟩
    refine ⟨i, List.mem_range.mpr (hij.trans hjn), ?_⟩
    rw [List.mem_map]
    refine ⟨j, ?_, rfl⟩
    rw [List.mem_filter, List.mem_range]
    exact ⟨hjn, by simpa using hij⟩

theorem pairList_nodup (n : ℕ) : (pairList n).Nodup := by
  unfold pairList
  rw [List.nodup_flatMap]
  constructor
  · intro i _
    exact (((List.nodup_range n).filter _).map (fun a b h => congrArg Prod.snd h))
  · have hpw : (List.range n).Pairwise (· ≠ ·) := List.nodup_range n
    refine hpw.imp ?_
    intro x y hne z hz1 hz2
    rw [List.mem_map] at hz1 hz2
    obtain ⟨a, _, rfl⟩ := hz1
    obtain ⟨b, _, hb⟩ := hz2
    exact hne (congrArg (fun z : ℕ × ℕ => z.1) hb.symm)

theorem nodup_get_ne {α : Type} {l : List α} (h : l.Nodup) {i j : ℕ} {a b : α}
    (hi : l.get? i = some a) (hj : l.get? j = some b) (hij : i ≠ j) : a ≠ b := by
  intro hab
  subst hab
  obtain ⟨hi', hgi⟩ := List.get?_eq_some.mp hi
  obtain ⟨hj', hgj⟩ := List.get?_eq_some.mp hj
  have hinj := h.get_inj_iff (i := ⟨i, hi'⟩) (j := ⟨j, hj'⟩)
  rw [hgi, hgj] at hinj
  exact hij (congrArg Fin.val (hinj.mp rfl))

theorem ovErase_label {e1 e2 : Entity} (h : ovErase e1 = ovErase e2) :
    e1.label = e2.label :=
  congrArg (fun e => e.label) h

theorem mkOverlapPair_congr {e1 e1' e2 e2' : Entity} (a1 a2 : Addr)
    (h1 : ovErase e1 = ovErase e1') (h2 : ovErase e2 = ovErase e2') :
    mkOverlapPair e1 e2 a1 a2 = mkOverlapPair e1' e2' a1 a2 := by
  have hh : mkOverlapPair e1 e2 a1 a2 = mkOverlapPair (ovErase e1) (ovErase e2) a1 a2 := rfl
  rw [hh, h1, h2]
  rfl

theorem hasIntersection_congr {e1 e1' e2 e2' : Entity}
    (h1 : ovErase e1 = ovErase e1') (h2 : ovErase e2 = ovErase e2') :
    hasIntersection e1 e2 = hasIntersection e1' e2' := by
  have hh : hasIntersection e1 e2 = hasIntersection (ovErase e1) (ovErase e2) := rfl
  rw [hh, h1, h2]
  rfl

theorem frame_entity {S img : Image}
    (hS : ∀ a', (getEntity S a').map ovErase = (getEntity img a').map ovErase)
    {x : Addr} {E : Entity} (h : getEntity img x = some E) :
    ∃ E', getEntity S x = some E' ∧ ovErase E' = ovErase E := by
  have hx := hS x
  rw [h] at hx
  cases hg : getEntity S x with
  | none =>
    rw [hg] at hx
    exact absurd hx (by simp)
  | some E' =>
    rw [hg] at hx
    simp only [Option.map_some'] at hx
    exact ⟨E', rfl, Option.some.inj hx⟩

theorem factsAt_imgModify_ovAppend (im : Image) (r : Addr) (k : String) (f : Overlap)
    (a b : Addr) (c : String) (hre : ∃ er, getEntity im r = some er) :
    factsAt (imgModify im r
      (fun e => { e with overlap := some (appendFact (e.overlap.getD []) k f) })) a b c =
      factsAt im a b c ++ (if a = r ∧ c = k ∧ f.objAddr = b then [f] else []) := by
  unfold factsAt
  rw [getEntity_imgModify]
  by_cases har : a = r
  · rw [if_pos har]
    obtain ⟨er, her⟩ := hre
    have her2 : getEntity im a = some er := by rw [har]; exact her
    rw [her2]
    simp only [Option.map_some', Option.getD_some]
    rw [alistGetD_appendFact]
    by_cases hck : c = k
    · subst hck
      rw [if_pos rfl, List.filter_append]
      by_cases hfb : f.objAddr = b
      · rw [if_pos ⟨har, rfl, hfb⟩]
        congr 1
        simp [hfb]
      · rw [if_neg (fun hh => hfb hh.2.2)]
        simp [hfb]
    · rw [if_neg hck, if_neg (fun hh => hck hh.2.1)]
      exact (List.append_nil _).symm
  · rw [if_neg har, if_neg (fun hh => har hh.1)]
    exact (List.append_nil _).symm

theorem factsAt_compareStep (im : Image) (a1 a2 : Addr) (e1 e2 : Entity)
    (h1 : getEntity im a1 = some e1) (h2 : getEntity im a2 = some e2)
    (hne : a1 ≠ a2) (a b : Addr) (c : String) :
    factsAt (compareStep im a1 a2) a b c =
      factsAt im a b c ++
        (if a = a1 ∧ b = a2 ∧ c = e2.label ∧ hasIntersection e1 e2 = true
          then [(mkOverlapPair e1 e2 a1 a2).1]
         else if a = a2 ∧ b = a1 ∧ c = e1.label ∧ hasIntersection e1 e2 = true
          then [(mkOverlapPair e1 e2 a1 a2).2]
         else []) := by
  unfold compareStep
  rw [h1, h2]
  simp only []
  by_cases hint : hasIntersection e1 e2 = true
  · rw [if_pos hint]
    have hmid : ∃ er, getEntity (imgModify im a1
        (fun e =>
          { e with overlap := some (appendFact (e.overlap.getD []) e2.label
              (mkOverlapPair e1 e2 a1 a2).1) })) a2 = some er := by
      rw [getEntity_imgModify, if_neg (fun hh => hne hh.symm)]
      exact ⟨e2, h2⟩
    rw [factsAt_imgModify_ovAppend _ _ _ _ _ _ _ hmid,
      factsAt_imgModify_ovAppend _ _ _ _ _ _ _ ⟨e1, h1⟩,
      List.append_assoc]
    congr 1
    have hobj1 : (mkOverlapPair e1 e2 a1 a2).1.objAddr = a2 := rfl
    have hobj2 : (mkOverlapPair e1 e2 a1 a2).2.objAddr = a1 := rfl
    rw [hobj1, hobj2]
    by_cases hA1 : a = a1
    · have hA2 : ¬ a = a2 := fun hh => hne (hA1 ▸ hh)
      by_cases hc : c = e2.label
      · by_cases hb : a2 = b
        · rw [if_pos ⟨hA1, hc, hb⟩, if_neg (fun hh => hA2 hh.1), List.append_nil,
            if_pos ⟨hA1, hb.symm, hc, hint⟩]
        · rw [if_neg (fun hh => hb hh.2.2), if_neg (fun hh => hA2 hh.1), List.append_nil,
            if_neg (fun hh => hb hh.2.1.symm), if_neg (fun hh => hA2 hh.1)]
      · rw [if_neg (fun hh => hc hh.2.1), if_neg (fun hh => hA2 hh.1), List.append_nil,
          if_neg (fun hh => hc hh.2.2.1), if_neg (fun hh => hA2 hh.1)]
    · rw [if_neg (fun hh => hA1 hh.1), List.nil_append]
      by_cases hA2 : a = a2
      · by_cases hc : c = e1.label
        · by_cases hb : a1 = b
          · rw [if_pos ⟨hA2, hc, hb⟩, if_neg (fun hh => hA1 hh.1),
              if_pos ⟨hA2, hb.symm, hc, hint⟩]
          · rw [if_neg (fun hh => hb hh.2.2), if_neg (fun hh => hA1 hh.1),
              if_neg (fun hh => hb hh.2.1.symm)]
        · rw [if_neg (fun hh => hc hh.2.1), if_neg (fun hh => hA1 hh.1),
            if_neg (fun hh => hc hh.2.2.1)]
      · rw [if_neg (fun hh => hA2 hh.1), if_neg (fun hh => hA1 hh.1),
          if_neg (fun hh => hA2 hh.1)]
  · rw [if_neg hint, if_neg (fun hh => hint hh.2.2.2), if_neg (fun hh => hint hh.2.2.2)]
    exact (List.append_nil _).symm

theorem nodup_get_pos_inj {α : Type} {l : List α} (h : l.Nodup) {i j : ℕ} {a : α}
    (hi : l.get? i = some a) (hj : l.get? j = some a) : i = j := by
  by_contra hnij
  exact (nodup_get_ne h hi hj hnij) rfl

theorem foldPairs_preserve (img : Image) (addrs : List Addr) (hnd : addrs.Nodup)
    (hent : ∀ x ∈ addrs, ∃ e, getEntity img x = some e) :
    ∀ (L : List (ℕ × ℕ)) (S : Image),
    (∀ a', (getEntity S a').map ovErase = (getEntity img a').map ovErase) →
    ∀ (a b : Addr) (c : String),
    (∀ pq ∈ L, pq.1 ≠ pq.2 ∧
      ∀ ai aj, addrs.get? pq.1 = some ai → addrs.get? pq.2 = some aj →
        ¬(ai = a ∧ aj = b) ∧ ¬(aj = a ∧ ai = b)) →
    factsAt (L.foldl (overlapPairStep addrs) S) a b c = factsAt S a b c := by
  intro L
  induction L with
  | nil => intro S _ a b c _; rfl
  | cons pq rest ih =>
    intro S hS a b c havoid
    rw [List.foldl_cons]
    have hstep : ∀ a', (getEntity (overlapPairStep addrs S pq) a').map ovErase =
        (getEntity img a').map ovErase := by
      intro a'
      unfold overlapPairStep
      cases hx1 : addrs.get? pq.1 with
      | none => exact hS a'
      | some x1 =>
        cases hx2 : addrs.get? pq.2 with
        | none => exact hS a'
        | some x2 =>
          rw [getEntity_proj_compareStep ovErase (fun e o' => rfl)]
          exact hS a'
    rw [ih _ hstep a b c (fun p hp => havoid p (List.mem_cons_of_mem pq hp))]
    unfold overlapPairStep
    cases hx1 : addrs.get? pq.1 with
    | none => rfl
    | some x1 =>
      cases hx2 : addrs.get? pq.2 with
      | none => rfl
      | some x2 =>
        obtain ⟨E1, hE1⟩ := hent x1 (List.get?_mem hx1)
        obtain ⟨E2, hE2⟩ := hent x2 (List.get?_mem hx2)
        obtain ⟨E1s, hE1s, _⟩ := frame_entity hS hE1
        obtain ⟨E2s, hE2s, _⟩ := frame_entity hS hE2
        have hxne : x1 ≠ x2 :=
          nodup_get_ne hnd hx1 hx2 (havoid pq (List.mem_cons_self pq rest)).1
        rw [factsAt_compareStep _ _ _ _ _ hE1s hE2s hxne]
        obtain ⟨hno1, hno2⟩ :=
          (havoid pq (List.mem_cons_self pq rest)).2 x1 x2 hx1 hx2
        rw [if_neg (fun hh => hno1 ⟨hh.1.symm, hh.2.1.symm⟩),
          if_neg (fun hh => hno2 ⟨hh.1.symm, hh.2.1.symm⟩)]
        exact List.append_nil _

theorem foldPairs_facts (img : Image) (addrs : List Addr) (hnd : addrs.Nodup)
    (hent : ∀ x ∈ addrs, ∃ e, getEntity img x = some e) :
    ∀ (L : List (ℕ × ℕ)), L.Nodup →
    (∀ pq ∈ L, pq.1 < pq.2) →
    ∀ S : Image,
    (∀ a', (getEntity S a').map ovErase = (getEntity img a').map ovErase) →
    (∀ pq ∈ L, ∀ ai aj, addrs.get? pq.1 = some ai → addrs.get? pq.2 = some aj →
      ∀ c, factsAt S ai aj c = [] ∧ factsAt S aj ai c = []) →
    ∀ pq ∈ L, ∀ ai aj A B, addrs.get? pq.1 = some ai → addrs.get? pq.2 = some aj →
      getEntity img ai = some A → getEntity img aj = some B →
      ∀ c,
      factsAt (L.foldl (overlapPairStep addrs) S) ai aj c =
        (if c = B.label ∧ hasIntersection A B = true
          then [(mkOverlapPair A B ai aj).1] else []) ∧
      factsAt (L.foldl (overlapPairStep addrs) S) aj ai c =
        (if c = A.label ∧ hasIntersection A B = true
          then [(mkOverlapPair A B ai aj).2] else []) := by
  intro L
  induction L with
  | nil =>
    intro _ _ S _ _ pq hpq
    exact absurd hpq (List.not_mem_nil pq)
  | cons hd rest ih =>
    intro hndL hlt S hS hzero pq hpq ai aj A B hgai hgaj hA hB c
    rw [List.foldl_cons]
    -- facts about the state after the head step
    have hheadlt : hd.1 < hd.2 := hlt hd (List.mem_cons_self hd rest)
    have hstepframe : ∀ a', (getEntity (overlapPairStep addrs S hd) a').map ovErase =
        (getEntity img a').map ovErase := by
      intro a'
      unfold overlapPairStep
      cases hx1 : addrs.get? hd.1 with
      | none => exact hS a'
      | some x1 =>
        cases hx2 : addrs.get? hd.2 with
        | none => exact hS a'
        | some x2 =>
          rw [getEntity_proj_compareStep ovErase (fun e o' => rfl)]
          exact hS a'
    rcases List.mem_cons.mp hpq with heq | hmem2
    · -- the head pair is ours
      subst heq
      obtain ⟨E1s, hE1s, hov1⟩ := frame_entity hS hA
      obtain ⟨E2s, hE2s, hov2⟩ := frame_entity hS hB
      have hxne : ai ≠ aj := nodup_get_ne hnd hgai hgaj (Nat.ne_of_lt hheadlt)
      have hmk : mkOverlapPair E1s E2s ai aj = mkOverlapPair A B ai aj :=
        mkOverlapPair_congr ai aj hov1 hov2
      have hintc : hasIntersection E1s E2s = hasIntersection A B :=
        hasIntersection_congr hov1 hov2
      have hlab2 : E2s.label = B.label := ovErase_label hov2
      have hlab1 : E1s.label = A.label := ovErase_label hov1
      have hstepval : overlapPairStep addrs S pq = compareStep S ai aj := by
        unfold overlapPairStep
        rw [hgai, hgaj]
      rw [hstepval]
      have hz := hzero pq (List.mem_cons_self pq rest) ai aj hgai hgaj
      -- the step records exactly the mirrored pair; the rest of the fold
      -- leaves the (ai, aj) slots alone
      have havoid : ∀ p ∈ rest, p.1 ≠ p.2 ∧
          ∀ bi bj, addrs.get? p.1 = some bi → addrs.get? p.2 = some bj →
            ¬(bi = ai ∧ bj = aj) ∧ ¬(bj = ai ∧ bi = aj) := by
        intro p hp
        refine ⟨Nat.ne_of_lt (hlt p (List.mem_cons_of_mem pq hp)), ?_⟩
        intro bi bj hbi hbj
        constructor
        · rintro ⟨rfl, rfl⟩
          have h1 : p.1 = pq.1 := nodup_get_pos_inj hnd hbi hgai
          have h2 : p.2 = pq.2 := nodup_get_pos_inj hnd hbj hgaj
          have : p = pq := Prod.ext h1 h2
          rw [this] at hp
          exact (List.nodup_cons.mp hndL).1 hp
        · rintro ⟨rfl, rfl⟩
          have h1 : p.2 = pq.1 := nodup_get_pos_inj hnd hbj hgai
          have h2 : p.1 = pq.2 := nodup_get_pos_inj hnd hbi hgaj
          have := hlt p (List.mem_cons_of_mem pq hp)
          omega
      have havoid2 : ∀ p ∈ rest, p.1 ≠ p.2 ∧
          ∀ bi bj, addrs.get? p.1 = some bi → addrs.get? p.2 = some bj →
            ¬(bi = aj ∧ bj = ai) ∧ ¬(bj = aj ∧ bi = ai) := by
        intro p hp
        obtain ⟨hne, hav⟩ := havoid p hp
        refine ⟨hne, ?_⟩
        intro bi bj hbi hbj
        obtain ⟨hx, hy⟩ := hav bi bj hbi hbj
        exact ⟨fun hh => hy ⟨hh.2, hh.1⟩, fun hh => hx ⟨hh.2, hh.1⟩⟩
      have hrestframe : ∀ a', (getEntity (compareStep S ai aj) a').map ovErase =
          (getEntity img a').map ovErase := fun a' =>
        (getEntity_proj_compareStep ovErase (fun e o' => rfl) S ai aj a').trans (hS a')
      constructor
      · rw [foldPairs_preserve img addrs hnd hent rest _ hrestframe ai aj c havoid]
        rw [factsAt_compareStep _ _ _ _ _ hE1s hE2s hxne ai aj c, (hz c).1,
          List.nil_append, hlab2, hlab1, hintc, hmk]
        by_cases hcond : c = B.label ∧ hasIntersection A B = true
        · rw [if_pos ⟨rfl, rfl, hcond.1, hcond.2⟩, if_pos hcond]
        · rw [if_neg (fun hh => hcond ⟨hh.2.2.1, hh.2.2.2⟩),
            if_neg (fun hh => hxne hh.1), if_neg hcond]
      · rw [foldPairs_preserve img addrs hnd hent rest _ hrestframe aj ai c havoid2]
        rw [factsAt_compareStep _ _ _ _ _ hE1s hE2s hxne aj ai c, (hz c).2,
          List.nil_append, hlab2, hlab1, hintc, hmk]
        by_cases hcond : c = A.label ∧ hasIntersection A B = true
        · rw [if_neg (fun hh => hxne hh.1.symm), if_pos ⟨rfl, rfl, hcond.1, hcond.2⟩,
            if_pos hcond]
        · rw [if_neg (fun hh => hxne hh.1.symm),
            if_neg (fun hh => hcond ⟨hh.2.2.1, hh.2.2.2⟩), if_neg hcond]
    · -- our pair is processed later; the head step leaves its slots empty
      refine ih (List.nodup_cons.mp hndL).2
        (fun p hp => hlt p (List.mem_cons_of_mem hd hp)) _ hstepframe ?_
        pq hmem2 ai aj A B hgai hgaj hA hB c
      intro p hp bi bj hbi hbj c'
      have hz0 := hzero p (List.mem_cons_of_mem hd hp) bi bj hbi hbj c'
      unfold overlapPairStep
      cases hx1 : addrs.get? hd.1 with
      | none => exact hz0
      | some x1 =>
        cases hx2 : addrs.get? hd.2 with
        | none => exact hz0
        | some x2 =>
          obtain ⟨F1, hF1⟩ := hent x1 (List.get?_mem hx1)
          obtain ⟨F2, hF2⟩ := hent x2 (List.get?_mem hx2)
          obtain ⟨F1s, hF1s, _⟩ := frame_entity hS hF1
          obtain ⟨F2s, hF2s, _⟩ := frame_entity hS hF2
          have hx12 : x1 ≠ x2 := nodup_get_ne hnd hx1 hx2 (Nat.ne_of_lt hheadlt)
          have hplt := hlt p (List.mem_cons_of_mem hd hp)
          have hc1 : ¬(bi = x1 ∧ bj = x2 ∧ c' = F2s.label ∧
              hasIntersection F1s F2s = true) := by
            rintro ⟨rfl, rfl, -, -⟩
            have hp1 : p.1 = hd.1 := nodup_get_pos_inj hnd hbi hx1
            have hp2 : p.2 = hd.2 := nodup_get_pos_inj hnd hbj hx2
            have hphd : p = hd := Prod.ext hp1 hp2
            rw [hphd] at hp
            exact (List.nodup_cons.mp hndL).1 hp
          have hc2 : ¬(bi = x2 ∧ bj = x1 ∧ c' = F1s.label ∧
              hasIntersection F1s F2s = true) := by
            rintro ⟨rfl, rfl, -, -⟩
            have hp1 : p.1 = hd.2 := nodup_get_pos_inj hnd hbi hx2
            have hp2 : p.2 = hd.1 := nodup_get_pos_inj hnd hbj hx1
            omega
          have hc3 : ¬(bj = x1 ∧ bi = x2 ∧ c' = F2s.label ∧
              hasIntersection F1s F2s = true) := by
            rintro ⟨rfl, rfl, -, -⟩
            have hp1 : p.2 = hd.1 := nodup_get_pos_inj hnd hbj hx1
            have hp2 : p.1 = hd.2 := nodup_get_pos_inj hnd hbi hx2
            omega
          have hc4 : ¬(bj = x2 ∧ bi = x1 ∧ c' = F1s.label ∧
              hasIntersection F1s F2s = true) := by
            rintro ⟨rfl, rfl, -, -⟩
            have hp1 : p.2 = hd.2 := nodup_get_pos_inj hnd hbj hx2
            have hp2 : p.1 = hd.1 := nodup_get_pos_inj hnd hbi hx1
            have hphd : p = hd := Prod.ext hp2 hp1
            rw [hphd] at hp
            exact (List.nodup_cons.mp hndL).1 hp
          constructor
          · rw [factsAt_compareStep _ _ _ _ _ hF1s hF2s hx12 bi bj c', hz0.1,
              List.nil_append, if_neg hc1, if_neg hc2]
          · rw [factsAt_compareStep _ _ _ _ _ hF1s hF2s hx12 bj bi c', hz0.2,
              List.nil_append, if_neg hc3, if_neg hc4]

/-- C3: after one run of `find_overlapping_objects` on an image whose overlap
state is reset, any two distinct entities of the image share at most one pair
of overlap facts: when their boxes intersect, each entity stores exactly one
fact referencing the other, filed under the other entity's label (and nothing
under any other label); when they do not intersect, neither stores any fact
about the other; and the two mirrored facts carry numerically identical
`intersection`, `iou` and `iom` values. -/
theorem find_overlapping_unique_mirrored (img : Image) (i j : ℕ) (ai aj : Addr)
    (A B : Entity) (hkeys : keysNodup img) (hij : i < j)
    (hgi : (flatAddrs img).get? i = some ai) (hgj : (flatAddrs img).get? j = some aj)
    (hA : getEntity img ai = some A) (hB : getEntity img aj = some B) :
    (∀ c, factsAt (findOverlappingImage img) ai aj c =
        (if c = B.label ∧ hasIntersection A B = true
          then [(mkOverlapPair A B ai aj).1] else []) ∧
      factsAt (findOverlappingImage img) aj ai c =
        (if c = A.label ∧ hasIntersection A B = true
          then [(mkOverlapPair A B ai aj).2] else [])) ∧
    (mkOverlapPair A B ai aj).1.intersection = (mkOverlapPair A B ai aj).2.intersection ∧
    (mkOverlapPair A B ai aj).1.iou = (mkOverlapPair A B ai aj).2.iou ∧
    (mkOverlapPair A B ai aj).1.iom = (mkOverlapPair A B ai aj).2.iom := by
  refine ⟨?_, rfl, rfl, rfl⟩
  intro c
  have hjlen : j < (flatAddrs img).length := (List.get?_eq_some.mp hgj).1
  have hmem : (i, j) ∈ pairList (flatAddrs img).length := mem_pairList.mpr ⟨hij, hjlen⟩
  have hframe : ∀ a', (getEntity (clearOverlaps img) a').map ovErase =
      (getEntity img a').map ovErase := by
    intro a'
    rw [getEntity_clearOverlaps]
    cases getEntity img a' <;> rfl
  have hmain := foldPairs_facts img (flatAddrs img) (flatAddrs_nodup hkeys)
    (fun x hx => flatAddrs_entity hkeys hx)
    (pairList (flatAddrs img).length) (pairList_nodup _)
    (fun pq hpq => by obtain ⟨p, q⟩ := pq; exact (mem_pairList.mp hpq).1)
    (clearOverlaps img) hframe
    (fun pq _ a1 a2 _ _ c2 =>
      ⟨factsAt_clearOverlaps img a1 a2 c2, factsAt_clearOverlaps img a2 a1 c2⟩)
    (i, j) hmem ai aj A B hgi hgj hA hB c
  unfold findOverlappingImage
  simp only []
  exact hmain

/-- Witness: the overlap pass on the example image gives `Object#0` and
`Group#0` exactly one mirrored fact pair. -/
theorem find_overlapping_unique_mirrored_witness :
    keysNodup demoImg ∧ (0 : ℕ) < 2 ∧
    (flatAddrs demoImg).get? 0 = some ("Object", 0) ∧
    (flatAddrs demoImg).get? 2 = some ("Group", 0) ∧
    getEntity demoImg ("Object", 0) = some demoObj0 ∧
    getEntity demoImg ("Group", 0) = some demoGrp0 ∧
    ((∀ c, factsAt (findOverlappingImage demoImg) ("Object", 0) ("Group", 0) c =
        (if c = demoGrp0.label ∧ hasIntersection demoObj0 demoGrp0 = true
          then [(mkOverlapPair demoObj0 demoGrp0 ("Object", 0) ("Group", 0)).1] else []) ∧
      factsAt (findOverlappingImage demoImg) ("Group", 0) ("Object", 0) c =
        (if c = demoObj0.label ∧ hasIntersection demoObj0 demoGrp0 = true
          then [(mkOverlapPair demoObj0 demoGrp0 ("Object", 0) ("Group", 0)).2] else [])) ∧
    (mkOverlapPair demoObj0 demoGrp0 ("Object", 0) ("Group", 0)).1.intersection =
      (mkOverlapPair demoObj0 demoGrp0 ("Object", 0) ("Group", 0)).2.intersection ∧
    (mkOverlapPair demoObj0 demoGrp0 ("Object", 0) ("Group", 0)).1.iou =
      (mkOverlapPair demoObj0 demoGrp0 ("Object", 0) ("Group", 0)).2.iou ∧
    (mkOverlapPair demoObj0 demoGrp0 ("Object", 0) ("Group", 0)).1.iom =
      (mkOverlapPair demoObj0 demoGrp0 ("Object", 0) ("Group", 0)).2.iom) :=
  ⟨by decide, by decide, by decide, by decide, by decide, by decide,
   find_overlapping_unique_mirrored demoImg 0 2 ("Object", 0) ("Group", 0)
     demoObj0 demoGrp0 (by decide) (by decide) (by decide) (by decide)
     (by decide) (by decide)⟩

end

end HierObj
